import Mathlib

/-!
# Verification of the jmap-server core against its specification

Shallow embedding of the relevant parts of the `stensonb/jmap-server`
repository (Rust) in Lean 4, together with theorems settling the frozen
claims about the change log, blob store, log compaction, JMAP id
serialization, the mail `set` pipeline, the `get` helper and the Raft
commit-index advancement.

Machine integers are modelled as `Nat` with explicit `% 2^w` where
wrap-around matters.  Fallible code returns `Option`/`Except`.  The
LEB128 byte layer (whose implementation is not part of the sampled
sources) is elided: a serialized change-log entry is modelled by the
lists of ids it denotes, which is exactly the information the byte
format carries.
-/

namespace JmapServer

/-! ## Change log (src/components/store/src/changelog.rs) -/

/-- `ChangeLogEntry` from changelog.rs: a collapsed change observed by a
log reader. Ids are `u64` (`ChangeLogId`), modelled as `Nat`. -/
inductive ChangeLogEntry where
  | insert (id : Nat)
  | update (id : Nat)
  | delete (id : Nat)
deriving DecidableEq, Repr

/-- A serialized `LogEntry` (changelog.rs lines 130-164) denotes three id
lists: inserts, updates and deletes, written in that order after their
LEB128 counters. -/
structure LogEntryData where
  inserts : List Nat
  updates : List Nat
  deletes : List Nat
deriving DecidableEq, Repr

/-- Result of the scan the deserializer performs for an incoming
`Update(id)` (changelog.rs lines 64-88): the loop walks the accumulated
changes in order, continues the outer loop on the first `Insert(id)`,
and breaks with the index of the first `Update(id)`. -/
inductive UpdateScan where
  | droppedByInsert
  | foundUpdate (idx : Nat)
  | notFound
deriving DecidableEq, Repr

/-- The scan loop for an incoming update (changelog.rs lines 66-82). -/
def scanForUpdate (changes : List ChangeLogEntry) (id : Nat) : UpdateScan :=
  match changes with
  | [] => .notFound
  | c :: rest =>
    match c with
    | .insert i => if i = id then .droppedByInsert else shift (scanForUpdate rest id)
    | .update u => if u = id then .foundUpdate 0 else shift (scanForUpdate rest id)
    | .delete _ => shift (scanForUpdate rest id)
where
  /-- Shift an index result over the head element. -/
  shift : UpdateScan → UpdateScan
    | .droppedByInsert => .droppedByInsert
    | .foundUpdate i => .foundUpdate (i + 1)
    | .notFound => .notFound

/-- Apply one `Update(id)` to the accumulated changes exactly as the
source loop body does (changelog.rs lines 61-91): drop it if the scan
hit an `Insert(id)` first, otherwise remove the scanned `Update(id)` (if
any) and append the new update. -/
def applyUpdate (changes : List ChangeLogEntry) (id : Nat) : List ChangeLogEntry :=
  match scanForUpdate changes id with
  | .droppedByInsert => changes
  | .foundUpdate idx => changes.eraseIdx idx ++ [.update id]
  | .notFound => changes ++ [.update id]

/-- Result of the scan for an incoming `Delete(id)` (changelog.rs lines
98-120): the first `Insert(id)` is removed in place and the delete is
dropped; otherwise the loop breaks at the first `Update(id)`. -/
inductive DeleteScan where
  | removedInsert (changes : List ChangeLogEntry)
  | foundUpdate (idx : Nat)
  | notFound
deriving DecidableEq, Repr

/-- The scan loop for an incoming delete (changelog.rs lines 100-116). -/
def scanForDelete (changes : List ChangeLogEntry) (id : Nat) : DeleteScan :=
  match changes with
  | [] => .notFound
  | c :: rest =>
    match c with
    | .insert i =>
      if i = id then .removedInsert rest
      else shift c (scanForDelete rest id)
    | .update u =>
      if u = id then .foundUpdate 0 else shift c (scanForDelete rest id)
    | .delete _ => shift c (scanForDelete rest id)
where
  /-- Shift a scan result over the (kept) head element. -/
  shift : ChangeLogEntry → DeleteScan → DeleteScan
    | c, .removedInsert rest => .removedInsert (c :: rest)
    | _, .foundUpdate i => .foundUpdate (i + 1)
    | _, .notFound => .notFound

/-- Apply one `Delete(id)` to the accumulated changes exactly as the
source loop body does (changelog.rs lines 95-123). -/
def applyDelete (changes : List ChangeLogEntry) (id : Nat) : List ChangeLogEntry :=
  match scanForDelete changes id with
  | .removedInsert changes' => changes'
  | .foundUpdate idx => changes.eraseIdx idx ++ [.delete id]
  | .notFound => changes ++ [.delete id]

/-- `ChangeLog::deserialize` (changelog.rs lines 45-127) restricted to
its collapse logic: inserts are appended unconditionally, then updates
and deletes are folded in with the scans above. The LEB128 decoding of
`bytes` (not part of the sampled sources) is elided; `entry` carries the
decoded id lists. -/
def ChangeLog.deserialize (changes : List ChangeLogEntry) (entry : LogEntryData) :
    List ChangeLogEntry :=
  let afterInserts := changes ++ entry.inserts.map ChangeLogEntry.insert
  let afterUpdates := entry.updates.foldl applyUpdate afterInserts
  entry.deletes.foldl applyDelete afterUpdates

/-- Replaying a sequence of serialized entries through
`ChangeLog::deserialize`, starting from the empty change list
(`ChangeLog::default`). -/
def ChangeLog.replay (entries : List LogEntryData) : List ChangeLogEntry :=
  entries.foldl ChangeLog.deserialize []

/-! ### The collapse rules as the spec words them (claim C1)

The spec's rules check for "a prior Insert(id)" / "a prior Update(id)"
as global membership tests on the accumulated changes, with the Insert
test taking precedence.  These definitions follow the spec's words and
are compared against the source-derived `ChangeLog.deserialize`. -/

/-- Spec-worded Update rule: if a prior `Insert(id)` exists anywhere,
drop the update; if a prior `Update(id)` exists, remove it and append
the new one; otherwise append. -/
def specApplyUpdate (changes : List ChangeLogEntry) (id : Nat) : List ChangeLogEntry :=
  if ChangeLogEntry.insert id ∈ changes then changes
  else if ChangeLogEntry.update id ∈ changes then
    changes.erase (ChangeLogEntry.update id) ++ [.update id]
  else changes ++ [.update id]

/-- Spec-worded Delete rule: if a prior `Insert(id)` exists anywhere,
remove the Insert and drop the delete; otherwise remove any prior
`Update(id)` and append the delete. -/
def specApplyDelete (changes : List ChangeLogEntry) (id : Nat) : List ChangeLogEntry :=
  if ChangeLogEntry.insert id ∈ changes then changes.erase (ChangeLogEntry.insert id)
  else if ChangeLogEntry.update id ∈ changes then
    changes.erase (ChangeLogEntry.update id) ++ [.delete id]
  else changes ++ [.delete id]

/-- The spec-worded collapse applied to one serialized entry. -/
def specDeserialize (changes : List ChangeLogEntry) (entry : LogEntryData) :
    List ChangeLogEntry :=
  let afterInserts := changes ++ entry.inserts.map ChangeLogEntry.insert
  let afterUpdates := entry.updates.foldl specApplyUpdate afterInserts
  entry.deletes.foldl specApplyDelete afterUpdates

/-- Spec-worded replay from the empty change list. -/
def specReplay (entries : List LogEntryData) : List ChangeLogEntry :=
  entries.foldl specDeserialize []

/-! ### First-match collapse rules (amended claim C1)

The source's scans act on the *first* entry matching the id among
Inserts and Updates, in list order, rather than giving Insert matches
global precedence. -/

/-- Decide whether an accumulated change matches `id` as an Insert or an
Update (the two kinds the source scans react to). -/
def matchesId (id : Nat) : ChangeLogEntry → Bool
  | .insert i => i = id
  | .update u => u = id
  | .delete _ => false

/-- First-match Update rule: the first accumulated entry equal to
`Insert(id)` or `Update(id)` decides: an Insert drops the update, an
Update is removed before the new update is appended; with no match the
update is appended. -/
def firstMatchApplyUpdate (changes : List ChangeLogEntry) (id : Nat) :
    List ChangeLogEntry :=
  match changes.find? (matchesId id) with
  | some (.insert _) => changes
  | some (.update _) => changes.erase (ChangeLogEntry.update id) ++ [.update id]
  | _ => changes ++ [.update id]

/-- First-match Delete rule: the first accumulated entry equal to
`Insert(id)` or `Update(id)` decides: an Insert is removed and the
delete dropped, an Update is removed and the delete appended; with no
match the delete is appended. -/
def firstMatchApplyDelete (changes : List ChangeLogEntry) (id : Nat) :
    List ChangeLogEntry :=
  match changes.find? (matchesId id) with
  | some (.insert _) => changes.erase (ChangeLogEntry.insert id)
  | some (.update _) => changes.erase (ChangeLogEntry.update id) ++ [.delete id]
  | _ => changes ++ [.delete id]

/-- First-match collapse applied to one serialized entry. -/
def firstMatchDeserialize (changes : List ChangeLogEntry) (entry : LogEntryData) :
    List ChangeLogEntry :=
  let afterInserts := changes ++ entry.inserts.map ChangeLogEntry.insert
  let afterUpdates := entry.updates.foldl firstMatchApplyUpdate afterInserts
  entry.deletes.foldl firstMatchApplyDelete afterUpdates

/-! ## Blob store (src/components/store/src/blob/local.rs)

A stored blob file is a byte list; an absent file is `none`.  `u32`
arithmetic is explicit: the file length is truncated with `% 2^32`
before the range comparisons (`blob_size as u32`), and the buffer-size
subtraction `min(range.end, blob_size) - from_offset`, which would
overflow below zero in Rust, is guarded and mapped to an error, as is a
`read_exact` past the end of the file. -/

/-- Failure modes of `LocalBlobStore::get_range`: an I/O error
(`read_exact` failing) or the arithmetic panic of the `u32` buffer-size
subtraction. -/
inductive BlobErr where
  | ioError
  | arithPanic
deriving DecidableEq, Repr

/-- `LocalBlobStore::get_range` (local.rs lines 74-101).  `file` is the
on-disk blob (`none` when the path does not exist); `start`/`stop` are
the `Range<u32>` bounds. -/
def getRange (file : Option (List Nat)) (start stop : Nat) :
    Except BlobErr (Option (List Nat)) := do
  match file with
  | none => return none
  | some bytes =>
    let blobSize := bytes.length % 2 ^ 32
    if start ≠ 0 ∨ stop ≠ 2 ^ 32 - 1 then
      let fromOffset := if start < blobSize then start else 0
      if min stop blobSize < fromOffset then
        throw .arithPanic
      else
        let bufLen := min stop blobSize - fromOffset
        if fromOffset + bufLen ≤ bytes.length then
          return some ((bytes.drop fromOffset).take bufLen)
        else
          throw .ioError
    else
      return some bytes

/-! ## Log compaction (src/components/store/src/log/compact.rs)

The `Logs` column family is modelled by two key-ordered association
lists: change-log entries keyed by `(account, collection, change_id)`
and Raft entries keyed by index (the iteration in compact.rs breaks as
soon as `raft_id.index > up_to`, so Raft keys iterate in ascending index
order).  Values are modelled structurally: an `ENTRY` value denotes its
four id lists, a `SNAPSHOT` value the set of present ids — exactly the
information content of the serialized bytes. -/

/-- A change-log value: granular `ENTRY` (first byte `Change::ENTRY`)
with inserts/updates/child-updates/deletes, or a compacted `SNAPSHOT`
holding the present-ids bitmap. -/
inductive ChangeValue where
  | entry (inserts updates childUpdates deletes : List Nat)
  | snapshot (presentIds : List Nat)
deriving DecidableEq, Repr

/-- A Raft log value (log/entry.rs): a single-account `Item` with its
changed-collections bitmap, or a coalesced `Snapshot` mapping each
collections-bitmap to the accounts it covers. -/
inductive RaftValue where
  | item (accountId : Nat) (changedCollections : List Nat)
  | snapshot (changedAccounts : List (List Nat × List Nat))
deriving DecidableEq, Repr

/-- The `Logs` column family as compact.rs observes it: change entries
sorted by `(account, collection, change_id)` and Raft entries sorted by
index. -/
structure LogsDb where
  changes : List ((Nat × Nat × Nat) × ChangeValue)
  rafts : List ((Nat × Nat) × RaftValue)
deriving DecidableEq, Repr

/-- Insert a set element into a sorted deduplicated id list (the
`RoaringTreemap::insert` of deserialize_inserts). -/
def idSetInsert (ids : List Nat) (id : Nat) : List Nat :=
  match ids with
  | [] => [id]
  | x :: rest =>
    if id < x then id :: x :: rest
    else if id = x then x :: rest
    else x :: idSetInsert rest id

/-- Remove a set element from a sorted id list (the
`RoaringTreemap::remove` of deserialize_inserts). -/
def idSetRemove (ids : List Nat) (id : Nat) : List Nat :=
  ids.filter (fun x => x ≠ id)

/-- `deserialize_inserts` (compact.rs lines 220-256): an `ENTRY` adds
its inserts and removes its deletes (updates and child-updates are
skipped); a `SNAPSHOT` replaces the accumulated set with its bitmap. -/
def deserialize_inserts (insertedIds : List Nat) (value : ChangeValue) : List Nat :=
  match value with
  | .entry inserts _ _ deletes =>
    deletes.foldl idSetRemove (inserts.foldl idSetInsert insertedIds)
  | .snapshot presentIds => presentIds

/-- A write operation queued into a compact.rs write batch. -/
inductive LogWriteOp where
  | deleteChange (key : Nat × Nat × Nat)
  | putChange (key : Nat × Nat × Nat) (value : ChangeValue)
  | deleteRaft (key : Nat × Nat)
  | putRaft (key : Nat × Nat) (value : RaftValue)
deriving DecidableEq, Repr

/-- Lexicographic order on serialized change keys
`account | collection | change_id` (big-endian keys iterate in this
order). -/
def changeKeyLt (a b : Nat × Nat × Nat) : Bool :=
  a.1 < b.1 ∨ (a.1 = b.1 ∧ (a.2.1 < b.2.1 ∨ (a.2.1 = b.2.1 ∧ a.2.2 < b.2.2)))

/-- Insert keeping the change list sorted by key, overwriting an equal
key (KV `set` semantics). -/
def putChangeSorted (l : List ((Nat × Nat × Nat) × ChangeValue))
    (key : Nat × Nat × Nat) (v : ChangeValue) :
    List ((Nat × Nat × Nat) × ChangeValue) :=
  match l with
  | [] => [(key, v)]
  | (k, w) :: rest =>
    if changeKeyLt key k then (key, v) :: (k, w) :: rest
    else if key = k then (key, v) :: rest
    else (k, w) :: putChangeSorted rest key v

/-- Insert keeping the Raft list sorted by index (then term),
overwriting an equal key. -/
def putRaftSorted (l : List ((Nat × Nat) × RaftValue)) (key : Nat × Nat)
    (v : RaftValue) : List ((Nat × Nat) × RaftValue) :=
  match l with
  | [] => [(key, v)]
  | (k, w) :: rest =>
    if key.2 < k.2 ∨ (key.2 = k.2 ∧ key.1 < k.1) then (key, v) :: (k, w) :: rest
    else if key = k then (key, v) :: rest
    else (k, w) :: putRaftSorted rest key v

/-- Apply one write operation to the modelled `Logs` column family. -/
def applyLogOp (db : LogsDb) (op : LogWriteOp) : LogsDb :=
  match op with
  | .deleteChange key => { db with changes := db.changes.filter (fun e => e.1 ≠ key) }
  | .putChange key v => { db with changes := putChangeSorted db.changes key v }
  | .deleteRaft key => { db with rafts := db.rafts.filter (fun e => e.1 ≠ key) }
  | .putRaft key v => { db with rafts := putRaftSorted db.rafts key v }

/-- `self.db.write(batch)`: apply a batch atomically. -/
def writeLogBatch (db : LogsDb) (batch : List LogWriteOp) : LogsDb :=
  batch.foldl applyLogOp db

/-- `serialize_snapshot` (compact.rs lines 196-218): append a snapshot
`set` at `(account, collection, up_to)` to the pending batch and clear
the accumulated inserted ids. -/
def serialize_snapshot (writeBatch : List LogWriteOp) (insertedIds : List Nat)
    (currentAccountId currentCollection lastChangeId : Nat) :
    List LogWriteOp × List Nat :=
  (writeBatch ++
    [LogWriteOp.putChange (currentAccountId, currentCollection, lastChangeId)
      (ChangeValue.snapshot insertedIds)], [])

/-- Loop state of the change-log phase of `compact_log`. -/
structure CompactChangeState where
  db : LogsDb
  currentAccountId : Nat
  currentCollection : Nat
  insertedIds : List Nat
  writeBatch : List LogWriteOp
  hasChanges : Bool
deriving Repr

/-- One iteration of the change-log loop of `compact_log` (compact.rs
lines 29-89): group switches flush the previous group's snapshot
immediately, entries above `up_to` are skipped, entries below `up_to`
are queued for deletion, an entry at exactly `up_to` sets
`has_changes`, and every non-skipped value folds into `inserted_ids`. -/
def compactChangeStep (upTo : Nat) (st : CompactChangeState)
    (e : (Nat × Nat × Nat) × ChangeValue) : CompactChangeState :=
  let ((accountId, collection, changeId), value) := e
  let st :=
    if accountId ≠ st.currentAccountId ∨ collection ≠ st.currentCollection then
      let st :=
        if st.writeBatch ≠ [] then
          let (batch, ids) := serialize_snapshot st.writeBatch st.insertedIds
            st.currentAccountId st.currentCollection upTo
          { st with db := writeLogBatch st.db batch, insertedIds := ids, writeBatch := [] }
        else st
      { st with currentAccountId := accountId, currentCollection := collection }
    else st
  if changeId > upTo then st
  else
    let st :=
      if changeId ≠ upTo then
        { st with writeBatch :=
            st.writeBatch ++ [LogWriteOp.deleteChange (accountId, collection, changeId)] }
      else { st with hasChanges := true }
    { st with insertedIds := deserialize_inserts st.insertedIds value }

/-- Loop state of the Raft phase of `compact_log`. -/
structure CompactRaftState where
  lastTerm : Nat
  changedAccounts : List (Nat × List Nat)
  writeBatch : List LogWriteOp
deriving Repr

/-- Union of two collections bitmaps (`Bitmap::union`), modelled on
sorted id lists. -/
def bitmapUnion (a b : List Nat) : List Nat :=
  b.foldl idSetInsert a

/-- `changed_accounts.entry(account).or_insert_with(default).union(c)`:
update an account's accumulated collections bitmap in place, appending
a fresh entry when absent. -/
def changedAccountsUnion (m : List (Nat × List Nat)) (accountId : Nat)
    (colls : List Nat) : List (Nat × List Nat) :=
  match m with
  | [] => [(accountId, colls)]
  | (a, cs) :: rest =>
    if a = accountId then (a, bitmapUnion cs colls) :: rest
    else (a, cs) :: changedAccountsUnion rest accountId colls

/-- The sentinel `TermId::MAX` (`u64::MAX`). -/
def termIdMax : Nat := 2 ^ 64 - 1

/-- The Raft phase of `compact_log` (compact.rs lines 104-156): walk the
Raft entries in ascending index order, folding entries with index ≤
`up_to` into `changed_accounts`, queueing deletions for indices strictly
below `up_to` and recording the term of the entry at exactly `up_to`;
break at the first index above `up_to`. -/
def compactRaftLoop (upTo : Nat) (st : CompactRaftState)
    (entries : List ((Nat × Nat) × RaftValue)) : CompactRaftState :=
  match entries with
  | [] => st
  | ((term, index), value) :: rest =>
    if index ≤ upTo then
      let st :=
        match value with
        | .item accountId changedCollections =>
          { st with changedAccounts :=
              changedAccountsUnion st.changedAccounts accountId changedCollections }
        | .snapshot newChangedAccounts =>
          let folded := newChangedAccounts.foldl
            (fun (m : List (Nat × List Nat)) (e : List Nat × List Nat) =>
              e.2.foldl (fun m a => changedAccountsUnion m a e.1) m)
            st.changedAccounts
          { st with changedAccounts := folded }
      let st :=
        if index ≠ upTo then
          { st with writeBatch := st.writeBatch ++ [LogWriteOp.deleteRaft (term, index)] }
        else { st with lastTerm := term }
      compactRaftLoop upTo st rest
    else st

/-- Group the accumulated per-account collections bitmaps by bitmap
(compact.rs lines 161-168), preserving first-seen order of bitmaps. -/
def groupChangedCollections (m : List (Nat × List Nat)) :
    List (List Nat × List Nat) :=
  m.foldl
    (fun acc e =>
      let (accountId, colls) := e
      if acc.any (fun g => g.1 = colls) then
        acc.map (fun g => if g.1 = colls then (g.1, g.2 ++ [accountId]) else g)
      else acc ++ [(colls, [accountId])])
    []

/-- `JMAPStore::compact_log` (compact.rs lines 21-193): fold the change
phase over all change entries, return early when no entry sat at
exactly `up_to`, flush the final group, then run the Raft phase and
write its batch together with the coalesced Raft snapshot at
`{term = last_term_seen, index = up_to}`. -/
def compact_log (db : LogsDb) (upTo : Nat) : LogsDb :=
  let st0 : CompactChangeState :=
    { db := db, currentAccountId := 0, currentCollection := 0,
      insertedIds := [], writeBatch := [], hasChanges := false }
  let st := db.changes.foldl (compactChangeStep upTo) st0
  if ¬ st.hasChanges then st.db
  else
    let (db1, inserted) :=
      if st.writeBatch ≠ [] then
        let (batch, ids) := serialize_snapshot st.writeBatch st.insertedIds
          st.currentAccountId st.currentCollection upTo
        (writeLogBatch st.db batch, ids)
      else (st.db, st.insertedIds)
    let _ := inserted
    let rst := compactRaftLoop upTo
      { lastTerm := termIdMax, changedAccounts := [], writeBatch := [] } db1.rafts
    let snapshotValue := RaftValue.snapshot (groupChangedCollections rst.changedAccounts)
    writeLogBatch db1
      (rst.writeBatch ++ [LogWriteOp.putRaft (rst.lastTerm, upTo) snapshotValue])

/-! ## JMAPId serialization (src/components/jmap_store/src/lib.rs)

`to_jmap_string` is `format!("i{:02x}", id)`: the character `i`
followed by the minimal lowercase hexadecimal digits of the `u64`,
zero-padded on the left to at least two digits.  `from_jmap_string`
checks the first byte for `i` and hands the remainder to
`u64::from_str_radix(_, 16)`, whose standard-library semantics accept
an optional leading `+` and hexadecimal digits of either case, and
reject the empty string and values overflowing 64 bits. -/

/-- The lowercase hexadecimal digit character for `d < 16` (`{:x}`
formatting). -/
def hexChar (d : Nat) : Char :=
  if d < 10 then Char.ofNat (48 + d) else Char.ofNat (87 + d)

/-- Hex digits of `n`, most significant first, by repeated division;
structurally recursive on a fuel bound so concrete values reduce in the
kernel. -/
def hexDigitsAux : Nat → Nat → List Char
  | 0, _ => []
  | fuel + 1, n =>
    if n = 0 then [] else hexDigitsAux fuel (n / 16) ++ [hexChar (n % 16)]

/-- Minimal lowercase hex digit list of `n`, most significant first
(`{:x}`); `0` renders as `"0"`. -/
def hexDigitsMinimal (n : Nat) : List Char :=
  if n = 0 then ['0'] else hexDigitsAux n n

/-- The digit characters of `{:02x}`: the minimal rendering left-padded
with `'0'` to at least two characters. -/
def hexDigitsPadded (n : Nat) : List Char :=
  List.replicate (2 - (hexDigitsMinimal n).length) '0' ++ hexDigitsMinimal n

/-- `JMAPId::to_jmap_string` (jmap_store lib.rs lines 59-61). -/
def to_jmap_string (n : Nat) : String :=
  String.mk ('i' :: hexDigitsPadded n)

/-- `char::to_digit(16)`: the value of a hexadecimal digit character of
either case. -/
def hexDigitVal (c : Char) : Option Nat :=
  if '0' ≤ c ∧ c ≤ '9' then some (c.toNat - 48)
  else if 'a' ≤ c ∧ c ≤ 'f' then some (c.toNat - 87)
  else if 'A' ≤ c ∧ c ≤ 'F' then some (c.toNat - 55)
  else none

/-- Accumulate hexadecimal digit characters left to right; `none` on the
first non-digit (the loop body of `from_str_radix`). -/
def parseHexAcc (cs : List Char) (acc : Nat) : Option Nat :=
  match cs with
  | [] => some acc
  | c :: rest =>
    match hexDigitVal c with
    | some d => parseHexAcc rest (acc * 16 + d)
    | none => none

/-- `u64::from_str_radix(s, 16)`: empty input and a bare sign are
rejected, an optional leading `+` is stripped (`-` is not a digit for an
unsigned type), and the digit loop errors out on overflow past
`2^64 - 1`. -/
def fromStrRadix16U64 (s : String) : Option Nat :=
  match s.data with
  | [] => none
  | c :: rest =>
    if c = '+' ∧ rest = [] then none
    else do
      let v ← parseHexAcc (if c = '+' then rest else c :: rest) 0
      if v < 2 ^ 64 then some v else none

/-- `JMAPId::from_jmap_string` (jmap_store lib.rs lines 48-57). -/
def from_jmap_string (s : String) : Option Nat :=
  match s.data with
  | c :: rest => if c = 'i' then fromStrRadix16U64 (String.mk rest) else none
  | [] => none

/-- Claim-side predicate: a lowercase hexadecimal digit character
(`0`-`9`, `a`-`f`), as the spec's "valid lowercase hex" requires. -/
def isLowerHexDigit (c : Char) : Bool :=
  ('0' ≤ c ∧ c ≤ '9') ∨ ('a' ≤ c ∧ c ≤ 'f')

/-- Strip one optional leading `+` sign. -/
def stripPlus : List Char → List Char
  | '+' :: rest => rest
  | cs => cs

/-- The value denoted by a hexadecimal digit character list (digits of
either case; non-digits count as zero, the predicate below rules them
out). -/
def hexValue (cs : List Char) : Nat :=
  cs.foldl (fun acc c => acc * 16 + (hexDigitVal c).getD 0) 0

/-- Amended validity predicate for `from_jmap_string`'s remainder: after
an optional leading `+`, a nonempty run of hexadecimal digits of either
case whose value fits in 64 bits. -/
def validHexNumeralU64 (cs : List Char) : Bool :=
  let ds := stripPlus cs
  !ds.isEmpty && ds.all (fun c => (hexDigitVal c).isSome) && decide (hexValue ds < 2 ^ 64)

/-! ## JSON values and id references

`JSONValue` lives in the `jmap` crate's protocol module, which is not
part of the sampled sources; it is the standard JSON value tree, and
`to_string`/`to_bool`/`to_object`/`to_array` are the variant
accessors. -/

/-- Modelled from the spec: the `JSONValue` tree of the JMAP request
envelope (jmap::protocol::json, outside the sampled sources). -/
inductive JSON where
  | null
  | bool (b : Bool)
  | number (n : Int)
  | string (s : String)
  | array (xs : List JSON)
  | object (fields : List (String × JSON))
deriving BEq, Repr

/-- `JSONValue::to_string`: the string accessor (`Some` exactly on the
`String` variant). -/
def JSON.toStr : JSON → Option String
  | .string s => some s
  | _ => none

/-- `JSONValue::to_bool`: the boolean accessor. -/
def JSON.toBool : JSON → Option Bool
  | .bool b => some b
  | _ => none

/-- `JSONValue::to_object` / `unwrap_object`: the object accessor. -/
def JSON.toObject : JSON → Option (List (String × JSON))
  | .object fields => some fields
  | _ => none

/-- Modelled from the spec: `JMAPId::from_jmap_ref`
(jmap::id, outside the sampled sources) resolves a `#localId` forward
reference against the batch's created-ids map and otherwise parses a
plain JMAP id string; either failure is an error message. -/
def fromJmapRef (s : String) (createdIds : List (String × Nat)) : Except String Nat :=
  match s.data with
  | '#' :: rest =>
    match createdIds.lookup (String.mk rest) with
    | some id => .ok id
    | none => .error "reference not found"
  | _ =>
    match from_jmap_string s with
    | some id => .ok id
    | none => .error "invalid JMAP id"

/-! ## Mail set (src/components/jmap_mail/src/mail/set.rs)

The JSON-pointer and `MailProperties` parsers live outside the sampled
sources; they are modelled from the spec's patch syntax ("a bare
property name", "a `field/key` path").  Every other recognized Mail
property behaves in the update path exactly like an unrecognized one
(both reach the `_ => unsupported` arm), so the modelled parser
distinguishes only `keywords`, `mailboxIds` and "everything else". -/

/-- `store::Tag`: document-id tags, static keyword tags and text
tags. -/
inductive Tag where
  | id (d : Nat)
  | static (k : Nat)
  | text (s : String)
deriving DecidableEq, Repr

/-- The `Keyword::SEEN` discriminant. -/
def keywordSeen : Nat := 0

/-- Modelled from the spec: `Keyword::from_jmap` (outside the sampled
sources) interns well-known JMAP keywords as static tags; the claims
only distinguish the seen keyword, all others behave uniformly and are
kept as text tags. -/
def Keyword.fromJmap (s : String) : Tag :=
  if s = "$seen" then .static keywordSeen else .text s

/-- `Tag::unwrap_id().unwrap_or_default()`. -/
def Tag.unwrapIdD : Tag → Nat
  | .id d => d
  | _ => 0

/-- The collections the mail set path touches. -/
inductive CollectionM where
  | mail
  | mailbox
deriving DecidableEq, Repr

/-- The two tag fields of a Mail document (`MessageField::Mailbox`,
`MessageField::Keyword`). -/
inductive MessageField where
  | mailbox
  | keyword
deriving DecidableEq, Repr

/-- One `document.tag(field, tag, options)` call: `clear` is
`DefaultOptions::new().clear()`. -/
structure TagOp where
  field : MessageField
  tag : Tag
  clear : Bool
deriving DecidableEq, Repr

/-- A change-log action queued into the write batch
(`log_update` / `log_child_update` / `log_delete` / `log_insert`). -/
inductive LogChange where
  | insert (collection : CollectionM) (jmapId : Nat)
  | update (collection : CollectionM) (jmapId : Nat)
  | childUpdate (collection : CollectionM) (jmapId : Nat)
  | delete (collection : CollectionM) (jmapId : Nat)
deriving DecidableEq, Repr

/-- A document mutation queued into the write batch. -/
inductive DocOp where
  | updateDocument (documentId : Nat) (ops : List TagOp)
  | deleteDocument (collection : CollectionM) (documentId : Nat)
deriving DecidableEq, Repr

/-- `store::batch::WriteBatch` as the mail set path uses it. -/
structure WriteBatchM where
  documents : List DocOp
  logs : List LogChange
deriving DecidableEq, Repr

/-- `WriteBatch::is_empty`. -/
def WriteBatchM.isEmpty (b : WriteBatchM) : Bool :=
  b.documents = [] ∧ b.logs = []

/-- The store state the mail `set` path reads and writes: live Mail and
Mailbox document ids, the two tag fields of each Mail document, and the
Mail collection's state token.  `get_document_tags` returning `Ok(None)`
and `Ok(Some(empty))` are observationally merged into the empty
list (`.map(|t| t.items).unwrap_or_default()`). -/
structure MailStoreState where
  mailDocumentIds : List Nat
  mailboxDocumentIds : List Nat
  mailboxTags : Nat → List Tag
  keywordTags : Nat → List Tag
  mailState : Nat

/-- Set-level method errors (jmap errors surfaced by `mail_set` / the
get helper). -/
inductive MethodError where
  | stateMismatch
  | requestTooLarge
  | internalError
deriving DecidableEq, Repr

/-- Per-object set errors: `JSONValue::new_error(type, description)` and
`JSONValue::new_invalid_property(property, description)`. -/
inductive SetErrType where
  | invalidProperties
  | notFound
  | willDestroy
  | invalidPatch
  | blobNotFound
deriving DecidableEq, Repr

/-- A per-object error value. -/
inductive SetErr where
  | error (ty : SetErrType) (description : String)
  | invalidProperty (property : String) (description : String)
deriving DecidableEq, Repr

/-- Parsed JSON-pointer patch paths. Modelled from the spec: a bare
property name, a two-token `field/key` path (both tokens non-numeric
strings — numeric tokens parse as array indices and fall through to the
unsupported arm), or anything else. -/
inductive PtrPath where
  | string (field : String)
  | path2 (field property : String)
  | other
deriving DecidableEq, Repr

/-- Split a character list on `/` separators. -/
def splitSlash (cs : List Char) : List (List Char) :=
  match cs with
  | [] => [[]]
  | c :: rest =>
    let r := splitSlash rest
    if c = '/' then [] :: r
    else
      match r with
      | [] => [[c]]
      | g :: gs => (c :: g) :: gs

/-- A nonempty all-digit path token (parsed as an array index by the
pointer grammar, so it falls through to the unsupported arm). -/
def numericToken (g : List Char) : Bool :=
  g.all Char.isDigit && !g.isEmpty

/-- Modelled from the spec: `JSONPointer::parse` on JMAP patch paths
(json_pointer.rs is outside the sampled sources). -/
def JSONPointer.parse (s : String) : PtrPath :=
  match splitSlash s.data with
  | [f] => if numericToken f then .other else .string (String.mk f)
  | [f, p] =>
    if numericToken f || numericToken p then .other
    else .path2 (String.mk f) (String.mk p)
  | _ => .other

/-- The `MailProperties` outcomes the update path distinguishes. -/
inductive MailProp where
  | keywords
  | mailboxIds
  | idOrOther
deriving DecidableEq, Repr

/-- Modelled from the spec: `MailProperties::parse(..).unwrap_or(Id)` as
the update path consumes it — all properties other than `keywords` and
`mailboxIds` (recognized or not) reach the same unsupported arm. -/
def MailProp.parse (s : String) : MailProp :=
  if s = "keywords" then .keywords
  else if s = "mailboxIds" then .mailboxIds
  else .idOrOther

/-- `HashMap::insert` on the tag-op maps: overwrite an existing key in
place, append a fresh one. -/
def tagOpInsert (l : List (Tag × Bool)) (k : Tag) (v : Bool) : List (Tag × Bool) :=
  match l with
  | [] => [(k, v)]
  | (k', v') :: rest =>
    if k' = k then (k, v) :: rest else (k', v') :: tagOpInsert rest k v

/-- `HashMap::get` on the tag-op maps. -/
def tagOpGet (l : List (Tag × Bool)) (k : Tag) : Option Bool :=
  match l with
  | [] => none
  | (k', v') :: rest => if k' = k then some v' else tagOpGet rest k

/-- The four accumulators of the per-update property loop
(set.rs lines 164-167). -/
structure PatchOps where
  keywordOps : List (Tag × Bool)
  keywordClearAll : Bool
  mailboxOps : List (Tag × Bool)
  mailboxClearAll : Bool
deriving DecidableEq, Repr

/-- One entry of a `mailboxIds` replacement object (set.rs lines
198-221): a true value tags the referenced mailbox, a failing reference
aborts the update, anything else is ignored. -/
def mailboxPatchStep (createdIds : List (String × Nat)) (ops : List (Tag × Bool))
    (e : String × JSON) : Except SetErr (List (Tag × Bool)) :=
  match fromJmapRef e.1 createdIds, e.2 with
  | .ok mailboxId, .bool true => .ok (tagOpInsert ops (Tag.id (mailboxId % 2 ^ 32)) true)
  | .error err, _ => .error (SetErr.invalidProperty ("mailboxIds/" ++ e.1) err)
  | .ok _, _ => .ok ops

/-- Collect one `(field, value)` pair of an update object into the
accumulators (set.rs lines 169-343), or fail with the per-update
error. -/
def collectPatchField (createdIds : List (String × Nat)) (acc : PatchOps)
    (field : String) (value : JSON) : Except SetErr PatchOps :=
  match JSONPointer.parse field with
  | .string f =>
    match MailProp.parse f with
    | .keywords =>
      match value with
      | .object obj =>
        let ops := obj.foldl
          (fun ops e =>
            match e.2 with
            | .bool true => tagOpInsert ops (Keyword.fromJmap e.1) true
            | _ => ops)
          acc.keywordOps
        .ok { acc with keywordOps := ops, keywordClearAll := true }
      | _ => .error (.invalidProperty "keywords" "Expected an object.")
    | .mailboxIds =>
      match value with
      | .object obj =>
        match obj.foldlM (mailboxPatchStep createdIds) acc.mailboxOps with
        | .ok ops => .ok { acc with mailboxOps := ops, mailboxClearAll := true }
        | .error e => .error e
      | _ => .error (.invalidProperty "mailboxIds" "Expected an object.")
    | .idOrOther => .error (.invalidProperty f "Unsupported property.")
  | .path2 f property =>
    match MailProp.parse f with
    | .idOrOther =>
      .error (.invalidProperty (f ++ "/" ++ property) "Unsupported property.")
    | .mailboxIds =>
      match value with
      | .null | .bool false =>
        match fromJmapRef property createdIds with
        | .ok mailboxId =>
          let ops := tagOpInsert acc.mailboxOps (Tag.id (mailboxId % 2 ^ 32)) false
          .ok { acc with mailboxOps := ops }
        | .error err =>
          .error (.invalidProperty (f ++ "/" ++ property) err)
      | .bool true =>
        match fromJmapRef property createdIds with
        | .ok mailboxId =>
          let ops := tagOpInsert acc.mailboxOps (Tag.id (mailboxId % 2 ^ 32)) true
          .ok { acc with mailboxOps := ops }
        | .error err =>
          .error (.invalidProperty (f ++ "/" ++ property) err)
      | _ =>
        .error (.invalidProperty (f ++ "/" ++ property)
          "Expected a boolean or null value.")
    | .keywords =>
      match value with
      | .null | .bool false =>
        let ops := tagOpInsert acc.keywordOps (Keyword.fromJmap property) false
        .ok { acc with keywordOps := ops }
      | .bool true =>
        let ops := tagOpInsert acc.keywordOps (Keyword.fromJmap property) true
        .ok { acc with keywordOps := ops }
      | _ =>
        .error (.invalidProperty (f ++ "/" ++ property)
          "Expected a boolean or null value.")
  | .other => .error (.invalidProperty field "Unsupported property.")

/-- Collect all properties of an update object. -/
def collectPatchOps (createdIds : List (String × Nat))
    (props : List (String × JSON)) : Except SetErr PatchOps :=
  props.foldlM (fun acc e => collectPatchField createdIds acc e.1 e.2)
    { keywordOps := [], keywordClearAll := false,
      mailboxOps := [], mailboxClearAll := false }

/-- `HashSet::insert` modelled on a duplicate-free list (iteration order
is unspecified in the source; the model keeps insertion order and all
properties stated about it are order-insensitive). -/
def hashSetInsert (l : List Nat) (x : Nat) : List Nat :=
  if x ∈ l then l else l ++ [x]

/-- `HashMap::insert` keyed by strings: overwrite in place or append. -/
def strMapInsert {β : Type} (l : List (String × β)) (k : String) (v : β) :
    List (String × β) :=
  match l with
  | [] => [(k, v)]
  | (k', v') :: rest =>
    if k' = k then (k, v) :: rest else (k', v') :: strMapInsert rest k v

/-- One iteration of the current-mailboxes loop (set.rs lines 371-394),
threading `(document, changed_mailboxes, has_mailboxes)`. -/
def mailboxCurrentStep (ops : PatchOps) (acc : List TagOp × List Nat × Bool)
    (mailbox : Tag) : List TagOp × List Nat × Bool :=
  let (doc, changed, has) := acc
  if ops.mailboxClearAll then
    if ¬ ((tagOpGet ops.mailboxOps mailbox).getD false) then
      (doc ++ [⟨.mailbox, mailbox, true⟩], hashSetInsert changed mailbox.unwrapIdD, has)
    else acc
  else if ¬ ((tagOpGet ops.mailboxOps mailbox).getD true) then
    (doc ++ [⟨.mailbox, mailbox, true⟩], hashSetInsert changed mailbox.unwrapIdD, has)
  else (doc, changed, true)

/-- One iteration of the mailbox-op loop (set.rs lines 396-418): tagging
a nonexistent mailbox aborts the update with `InvalidProperties`. -/
def mailboxOpStep (mailboxDocIds : List Nat) (currentMailboxes : List Tag)
    (acc : List TagOp × List Nat × Bool) (e : Tag × Bool) :
    Except SetErr (List TagOp × List Nat × Bool) :=
  let (doc, changed, _has) := acc
  if e.2 then
    let mailboxId := e.1.unwrapIdD
    if mailboxId ∈ mailboxDocIds then
      if e.1 ∉ currentMailboxes then
        .ok (doc ++ [⟨.mailbox, e.1, false⟩], hashSetInsert changed mailboxId, true)
      else .ok (doc, changed, true)
    else
      .error (.invalidProperty ("mailboxIds/" ++ toString mailboxId)
        "Mailbox does not exist.")
  else .ok acc

/-- One iteration of the current-keywords loop (set.rs lines 446-474),
threading `(document ops, unread_changed)`. -/
def keywordCurrentStep (ops : PatchOps) (acc : List TagOp × Bool)
    (keyword : Tag) : List TagOp × Bool :=
  let (doc, unread) := acc
  if ops.keywordClearAll then
    if ¬ ((tagOpGet ops.keywordOps keyword).getD false) then
      (doc ++ [⟨.keyword, keyword, true⟩], unread || (keyword == Tag.static keywordSeen))
    else acc
  else if ¬ ((tagOpGet ops.keywordOps keyword).getD true) then
    (doc ++ [⟨.keyword, keyword, true⟩], unread || (keyword == Tag.static keywordSeen))
  else acc

/-- One iteration of the keyword-op loop (set.rs lines 476-492). -/
def keywordOpStep (currentKeywords : List Tag) (acc : List TagOp × Bool)
    (e : Tag × Bool) : List TagOp × Bool :=
  let (doc, unread) := acc
  if e.2 then
    if e.1 ∉ currentKeywords then
      (doc ++ [⟨.keyword, e.1, false⟩], unread || (e.1 == Tag.static keywordSeen))
    else acc
  else acc

/-- The data a successful update contributes to the write batch. -/
structure UpdateSuccess where
  documentId : Nat
  jmapId : Nat
  document : List TagOp
  changedMailboxes : List Nat
  logs : List LogChange
deriving DecidableEq, Repr

/-- The mailbox section of the update path (set.rs lines 346-431): walk
the current mailbox tags, then the queued mailbox ops, and reject an
update that would leave the message in zero mailboxes or that tags a
nonexistent mailbox. -/
def mailboxSection (store : MailStoreState) (documentId : Nat)
    (mailboxDocIds : List Nat) (ops : PatchOps) :
    Except SetErr (List TagOp × List Nat) :=
  if ops.mailboxOps ≠ [] ∨ ops.mailboxClearAll then
    let current := store.mailboxTags documentId
    let acc := current.foldl (mailboxCurrentStep ops) ([], [], false)
    match ops.mailboxOps.foldlM (mailboxOpStep mailboxDocIds current) acc with
    | .ok acc =>
      if ¬ acc.2.2 then
        .error (.invalidProperty "mailboxIds"
          "Message must belong to at least one mailbox.")
      else .ok (acc.1, acc.2.1)
    | .error e => .error e
  else .ok ([], [])

/-- The keyword section of the update path (set.rs lines 433-507),
extending the document ops and — when the seen keyword was toggled —
the changed-mailboxes set with every mailbox containing the message. -/
def keywordSection (store : MailStoreState) (documentId : Nat) (ops : PatchOps)
    (doc1 : List TagOp) (changed1 : List Nat) : List TagOp × List Nat :=
  if ops.keywordOps ≠ [] ∨ ops.keywordClearAll then
    let current := store.keywordTags documentId
    let kacc := current.foldl (keywordCurrentStep ops) ([], false)
    let kacc := ops.keywordOps.foldl (keywordOpStep current) kacc
    let changed :=
      if kacc.2 then
        (store.mailboxTags documentId).foldl
          (fun ch m => hashSetInsert ch m.unwrapIdD) changed1
      else changed1
    (doc1 ++ kacc.1, changed)
  else (doc1, changed1)

/-- Process one entry of the update map (set.rs lines 128-529).  The
error carries the child-update log entries already queued before the
failure surfaced: every `continue 'main` error site precedes the
child-update logging except the final `InvalidPatch` arm, which logs the
changed-mailboxes set first. -/
def processUpdate (store : MailStoreState) (documentIds : List Nat)
    (mailboxDocIds : List Nat) (createdIds : List (String × Nat))
    (destroy : List JSON) (jmapIdStr : String) (value : JSON) :
    Except (SetErr × List LogChange) UpdateSuccess := do
  let (jmapId, props) ←
    match from_jmap_string jmapIdStr, value.toObject with
    | some j, some p => Except.ok (j, p)
    | _, _ => .error (.error .invalidProperties "Failed to parse request.", [])
  let documentId := jmapId % 2 ^ 32
  if documentId ∉ documentIds then
    throw (.error .notFound "ID not found.", [])
  else if destroy.any (fun x => (x.toStr.map (fun v => v == jmapIdStr)).getD false) then
    throw (.error .willDestroy "ID will be destroyed.", [])
  else do
    let ops ←
      match collectPatchOps createdIds props with
      | .ok ops => Except.ok ops
      | .error e => .error (e, [])
    let mailboxPart ←
      match mailboxSection store documentId mailboxDocIds ops with
      | .ok part => Except.ok part
      | .error e => .error (e, [])
    let keywordPart := keywordSection store documentId ops mailboxPart.1 mailboxPart.2
    let (document, changedMailboxes) := keywordPart
    let childLogs := changedMailboxes.map (LogChange.childUpdate .mailbox)
    if document = [] then
      throw (.error .invalidPatch "No changes found in request.", childLogs)
    else
      pure { documentId := documentId, jmapId := jmapId, document := document,
             changedMailboxes := changedMailboxes,
             logs := childLogs ++ [LogChange.update .mail jmapId] }

/-! ### Message building (creates) -/

/-- One parsed property of a create object, as `build_message` (set.rs
lines 579-787) dispatches on it.  Header, body and date properties
delegate to the external `mail_builder`/`chrono` crates; their outcome
is modelled as either a per-property error or a success flag saying
whether the property contributed a header or body part to the
builder. -/
inductive BuildField where
  | mailboxIds (v : JSON)
  | keywords (v : JSON)
  | headerOrBody (result : Except SetErr Bool)
  | serverSet
  | unknown (name : String)

/-- The `fields` argument of `build_message`: a JSON object of parsed
properties, or any non-object value. -/
inductive BuildFields where
  | notObject
  | object (fields : List BuildField)

/-- The accumulating `MessageItem` of `build_message`. -/
structure MessageItemM where
  mailboxIds : List Nat
  keywords : List Tag
  builderNonempty : Bool
deriving DecidableEq, Repr

/-- Fold one create property into the message item (the property loop of
set.rs lines 602-754). -/
def collectBuildField (existingMailboxes : List Nat)
    (createdIds : List (String × Nat)) (acc : MessageItemM) (f : BuildField) :
    Except SetErr MessageItemM :=
  match f with
  | .mailboxIds v =>
    match v.toObject with
    | none => .error (.error .invalidProperties "Expected object containing mailboxIds")
    | some obj =>
      let step : MessageItemM → String × JSON → Except SetErr MessageItemM :=
        fun acc e =>
          match fromJmapRef e.1 createdIds with
          | .error err => .error (.error .invalidProperties err)
          | .ok id =>
            let mailboxId := id % 2 ^ 32
            match e.2.toBool with
            | none =>
              .error (.error .invalidProperties "Expected boolean value in mailboxIds")
            | some true =>
              if mailboxId ∉ existingMailboxes then
                .error (.error .invalidProperties
                  ("mailboxId " ++ e.1 ++ " does not exist."))
              else .ok { acc with mailboxIds := acc.mailboxIds ++ [mailboxId] }
            | some false => .ok acc
      obj.foldlM step acc
  | .keywords v =>
    match v.toObject with
    | none => .error (.error .invalidProperties "Expected object containing keywords")
    | some obj =>
      let step : MessageItemM → String × JSON → Except SetErr MessageItemM :=
        fun acc e =>
          match e.2.toBool with
          | none =>
            .error (.error .invalidProperties "Expected boolean value in keywords")
          | some true => .ok { acc with keywords := acc.keywords ++ [Keyword.fromJmap e.1] }
          | some false => .ok acc
      obj.foldlM step acc
  | .headerOrBody r =>
    match r with
    | .ok b => .ok { acc with builderNonempty := acc.builderNonempty ∨ b }
    | .error e => .error e
  | .serverSet => .ok acc
  | .unknown name => .error (.error .invalidProperties ("Failed to parse " ++ name))

/-- `build_message` (set.rs lines 579-787): process every property, then
require at least one mailbox and a nonempty builder. -/
def build_message (existingMailboxes : List Nat)
    (createdIds : List (String × Nat)) (fields : BuildFields) :
    Except SetErr MessageItemM :=
  match fields with
  | .notObject => .error (.error .invalidProperties "Failed to parse request.")
  | .object fs => do
    let item ← fs.foldlM (collectBuildField existingMailboxes createdIds)
      ⟨[], [], false⟩
    if item.mailboxIds = [] then
      throw (.error .invalidProperties "Message has to belong to at least one mailbox.")
    else if ¬ item.builderNonempty then
      throw (.error .invalidProperties
        "Message has to have at least one header or body part.")
    else pure item

/-- The lowest DocumentId absent from `used` (the freelist allocation
the spec describes). -/
def lowestFreeId (used : List Nat) : Nat :=
  ((List.range (used.length + 1)).find? (fun n => n ∉ used)).getD 0

/-- Modelled from the spec: `mail_import_blob` (mail/import.rs, outside
the sampled sources) allocates the lowest unused DocumentId, stores the
message with its mailbox and keyword tags, logs an Insert for the Mail
collection and commits its own batch, returning the created id. -/
def mail_import_blob (store : MailStoreState) (item : MessageItemM) :
    MailStoreState × Nat :=
  let docId := lowestFreeId store.mailDocumentIds
  let store' : MailStoreState :=
    { mailDocumentIds := store.mailDocumentIds ++ [docId],
      mailboxDocumentIds := store.mailboxDocumentIds,
      mailboxTags := fun d => if d = docId then item.mailboxIds.map Tag.id
        else store.mailboxTags d,
      keywordTags := fun d => if d = docId then item.keywords
        else store.keywordTags d,
      mailState := store.mailState + 1 }
  (store', docId)

/-! ### Destroys -/

/-- Accumulators of the destroy loop (set.rs lines 531-552). -/
structure DestroyAcc where
  destroyed : List JSON
  notDestroyed : List (String × SetErr)
  docOps : List DocOp
  logs : List LogChange

/-- One iteration of the destroy loop (set.rs lines 534-552): a string
that resolves to a live document is destroyed; a string that fails to
resolve or is not live is reported `NotFound`; any non-string entry
falls through both `if let`s and is skipped. -/
def destroyStep (documentIds : List Nat) (createdIds : List (String × Nat))
    (acc : DestroyAcc) (destroyId : JSON) : DestroyAcc :=
  match destroyId.toStr with
  | some s =>
    match fromJmapRef s createdIds with
    | .ok jmapId =>
      let documentId := jmapId % 2 ^ 32
      if documentId ∈ documentIds then
        { acc with docOps := acc.docOps ++ [.deleteDocument .mail documentId],
                   logs := acc.logs ++ [.delete .mail jmapId],
                   destroyed := acc.destroyed ++ [destroyId] }
      else
        { acc with notDestroyed :=
            strMapInsert acc.notDestroyed s (.error .notFound "ID not found.") }
    | .error _ =>
      { acc with notDestroyed :=
          strMapInsert acc.notDestroyed s (.error .notFound "ID not found.") }
  | none => acc

/-- The destroy loop over the whole destroy list. -/
def processDestroys (documentIds : List Nat) (createdIds : List (String × Nat))
    (destroy : List JSON) : DestroyAcc :=
  destroy.foldl (destroyStep documentIds createdIds) ⟨[], [], [], []⟩

/-! ### The assembled mail_set -/

/-- The decoded `SetRequest` for the Mail collection. -/
structure SetRequestM where
  accountId : Nat
  ifInState : Option Nat
  create : List (String × BuildFields)
  update : List (String × JSON)
  destroy : List JSON

/-- The `mail_set` response object. -/
structure SetResponseM where
  created : List (String × Nat)
  notCreated : List (String × SetErr)
  updated : List (String × JSON)
  notUpdated : List (String × SetErr)
  destroyed : List JSON
  notDestroyed : List (String × SetErr)
  oldState : Nat
  newState : Nat

/-- Apply queued tag operations of one field to a document's current tag
list. -/
def applyTagOps (current : List Tag) (ops : List TagOp) (field : MessageField) :
    List Tag :=
  ops.foldl
    (fun cur op =>
      if op.field = field then
        if op.clear then cur.filter (fun t => t ≠ op.tag)
        else if op.tag ∈ cur then cur
        else cur ++ [op.tag]
      else cur)
    current

/-- Modelled from the spec: committing a write batch (`self.write`,
store crate machinery outside the sampled sources) applies the queued
document mutations, appends the change-log entries and advances the
state token. -/
def applyWriteBatch (store : MailStoreState) (batch : WriteBatchM) : MailStoreState :=
  let store := batch.documents.foldl
    (fun (st : MailStoreState) op =>
      match op with
      | .updateDocument docId ops =>
        { st with
          mailboxTags := fun d => if d = docId then applyTagOps (st.mailboxTags d) ops .mailbox
            else st.mailboxTags d,
          keywordTags := fun d => if d = docId then applyTagOps (st.keywordTags d) ops .keyword
            else st.keywordTags d }
      | .deleteDocument _ docId =>
        { st with
          mailDocumentIds := st.mailDocumentIds.filter (fun d => d ≠ docId),
          mailboxTags := fun d => if d = docId then [] else st.mailboxTags d,
          keywordTags := fun d => if d = docId then [] else st.keywordTags d })
    store
  { store with mailState := store.mailState + 1 }

/-- `JMAPMailSet::mail_set` (set.rs lines 77-576): capture `old_state`,
enforce `if_in_state`, process creates (each committing through the mail
blob path), then updates and destroys into one write batch, commit the
batch if nonempty and reread the state. -/
def mail_set (store : MailStoreState) (request : SetRequestM) :
    Except MethodError (MailStoreState × SetResponseM) := do
  let oldState := store.mailState
  if request.ifInState.any (fun s => oldState ≠ s) then
    throw MethodError.stateMismatch
  else do
    let documentIds := store.mailDocumentIds
    let mailboxIds := store.mailboxDocumentIds
    let createPhase := request.create.foldl
      (fun (acc : MailStoreState × List (String × Nat) × List (String × SetErr)) e =>
        let (st, created, notCreated) := acc
        match build_message mailboxIds created e.2 with
        | .ok item =>
          let (st', jmapId) := mail_import_blob st item
          (st', strMapInsert created e.1 jmapId, notCreated)
        | .error err => (st, created, strMapInsert notCreated e.1 err))
      (store, [], [])
    let (store1, created, notCreated) := createPhase
    let updatePhase := request.update.foldl
      (fun (acc : WriteBatchM × List (String × JSON) × List (String × SetErr)) e =>
        let (batch, updated, notUpdated) := acc
        match processUpdate store1 documentIds mailboxIds created request.destroy
          e.1 e.2 with
        | .ok o =>
          ({ documents := batch.documents ++ [.updateDocument o.documentId o.document],
             logs := batch.logs ++ o.logs },
           strMapInsert updated e.1 JSON.null, notUpdated)
        | .error (err, childLogs) =>
          ({ batch with logs := batch.logs ++ childLogs }, updated,
           strMapInsert notUpdated e.1 err))
      (⟨[], []⟩, [], [])
    let (batch0, updated, notUpdated) := updatePhase
    let dacc := processDestroys documentIds created request.destroy
    let batch : WriteBatchM :=
      { documents := batch0.documents ++ dacc.docOps,
        logs := batch0.logs ++ dacc.logs }
    let (store2, newState) :=
      if ¬ batch.isEmpty then
        let st := applyWriteBatch store1 batch
        (st, st.mailState)
      else (store1, oldState)
    pure (store2,
      { created := created, notCreated := notCreated,
        updated := updated, notUpdated := notUpdated,
        destroyed := dacc.destroyed, notDestroyed := dacc.notDestroyed,
        oldState := oldState, newState := newState })

/-! ## Get helper (src/components/jmap/src/jmap_store/get.rs) -/

/-- The decoded `GetRequest` fields `GetHelper::new` consumes: the ids
and properties lists after `unwrap_value` (an unresolved result
reference behaves like an absent field). -/
structure GetRequestM where
  accountId : Nat
  ids : Option (List Nat)
  properties : Option (List Nat)

/-- The state `GetHelper::new` builds (get.rs lines 47-114). -/
structure GetHelperM where
  documentIds : List Nat
  properties : List Nat
  requestIds : List Nat
  validateIds : Bool
  state : Nat
deriving DecidableEq, Repr

/-- `GetHelper::new` (get.rs lines 47-114).  `liveIds` is
`store.get_document_ids(account, collection)` (empty for `None`),
`state` is `store.get_state`, `defaultProperties` is
`O::default_properties()`, and `idMapper` the optional type-specific
mapper whose presence doubles as the `validate_ids` signal. -/
def getHelperNew (maxObjectsInGet : Nat) (liveIds : List Nat) (state : Nat)
    (defaultProperties : List Nat) (request : GetRequestM)
    (idMapper : Option (List Nat → Except MethodError (List Nat))) :
    Except MethodError GetHelperM := do
  let validateIds := idMapper.isSome
  let properties :=
    match request.properties with
    | some p => if p ≠ [] then p else defaultProperties
    | none => defaultProperties
  let documentIds := if validateIds then liveIds else []
  let requestIds ←
    match request.ids with
    | some requestIds =>
      if requestIds.length > maxObjectsInGet then
        throw MethodError.requestTooLarge
      else pure requestIds
    | none =>
      if documentIds ≠ [] then
        match idMapper with
        | some mapper => mapper (documentIds.take maxObjectsInGet)
        | none => throw MethodError.internalError
      else pure []
  pure { documentIds := documentIds,
         properties := if properties ≠ [] then properties else defaultProperties,
         requestIds := requestIds, validateIds := validateIds, state := state }

/-- `GetHelper::get` (get.rs lines 116-130): fetch each requested id,
collecting misses (ids outside the live set when validating, or a
`None` fetch) into `not_found`. -/
def getHelperGet (h : GetHelperM)
    (getFnc : Nat → Except MethodError (Option Nat)) :
    Except MethodError (List Nat × List Nat) :=
  h.requestIds.foldlM
    (fun (acc : List Nat × List Nat) id => do
      if ¬ h.validateIds ∨ (id % 2 ^ 32) ∈ h.documentIds then
        match ← getFnc id with
        | some result => pure (acc.1 ++ [result], acc.2)
        | none => pure (acc.1, acc.2 ++ [id])
      else pure (acc.1, acc.2 ++ [id]))
    ([], [])

/-! ## Raft commit-index advancement (src/src/cluster/raft/commit.rs) -/

/-- `LogIndex::MAX` (`u64::MAX`), the unset sentinel. -/
def logIndexMax : Nat := 2 ^ 64 - 1

/-- `u64::wrapping_add(1)`. -/
def wrapInc (x : Nat) : Nat := (x + 1) % 2 ^ 64

/-- `u64::wrapping_sub(1)`. -/
def wrapDec (x : Nat) : Nat := (x + (2 ^ 64 - 1)) % 2 ^ 64

/-- A cluster peer as `advance_commit_index` sees it: its id, the shard
it lives in, and its last acknowledged commit index. -/
structure RaftPeer where
  peerId : Nat
  shardId : Nat
  commitIndex : Nat
deriving DecidableEq, Repr

/-- The leader state `advance_commit_index` reads and writes. -/
structure ClusterState where
  peers : List RaftPeer
  shardId : Nat
  uncommittedIndex : Nat
  lastLogIndex : Nat
  lastLogTerm : Nat
  term : Nat
deriving DecidableEq, Repr

/-- `Cluster::advance_commit_index` (commit.rs lines 36-85): update the
replying in-shard peer's commit index when the report is newer or the
stored value is the unset sentinel, collect `commit_index + 1` (wrapped)
of every in-shard peer plus `uncommitted_index + 1`, sort, take the
element at `⌊len/2⌋`, and advance `last_log` when it exceeds
`last_log.index + 1`. -/
def advanceCommitIndex (st : ClusterState) (peerId commitIndex : Nat) :
    ClusterState :=
  let peers := st.peers.map
    (fun p =>
      if p.shardId = st.shardId ∧ p.peerId = peerId ∧
          (commitIndex > p.commitIndex ∨ p.commitIndex = logIndexMax) then
        { p with commitIndex := commitIndex }
      else p)
  let indexes :=
    (peers.filter (fun p => p.shardId = st.shardId)).map
      (fun p => wrapInc p.commitIndex) ++ [wrapInc st.uncommittedIndex]
  let sorted := indexes.insertionSort (· ≤ ·)
  let median := sorted.getD (indexes.length / 2) 0
  if median > wrapInc st.lastLogIndex then
    { st with peers := peers, lastLogIndex := wrapDec median, lastLogTerm := st.term }
  else { st with peers := peers }

/-! ## Claim-side predicates for the mail set path -/

/-- Whether a current mailbox tag survives the queued mailbox ops
(set.rs lines 371-394): under a clear-all replacement it survives only
when explicitly re-tagged; otherwise it survives unless explicitly
untagged. -/
def mailboxKept (ops : PatchOps) (m : Tag) : Bool :=
  if ops.mailboxClearAll then (tagOpGet ops.mailboxOps m).getD false
  else (tagOpGet ops.mailboxOps m).getD true

/-- Whether a current keyword tag survives the queued keyword ops
(set.rs lines 446-474). -/
def keywordKept (ops : PatchOps) (k : Tag) : Bool :=
  if ops.keywordClearAll then (tagOpGet ops.keywordOps k).getD false
  else (tagOpGet ops.keywordOps k).getD true

/-- Claim-side condition of C6: the update adds the seen keyword to a
message that does not carry it, or removes it (explicitly or through a
clear-all keyword replacement) from a message that does. -/
def seenToggled (currentKeywords : List Tag) (ops : PatchOps) : Prop :=
  (Tag.static keywordSeen ∈ currentKeywords ∧
    ¬ keywordKept ops (Tag.static keywordSeen)) ∨
  (Tag.static keywordSeen ∉ currentKeywords ∧
    tagOpGet ops.keywordOps (Tag.static keywordSeen) = some true)

/-- Claim-side median of a multiset: the element at position `⌊n/2⌋` of
its sorted arrangement (the upper median for even sizes, matching
`indexes[(len as f64 / 2.0).floor()]`). -/
def specMedian (m : Multiset Nat) : Nat :=
  (Multiset.sort (· ≤ ·) m).getD (Multiset.card m / 2) 0

/-! ### Equivalence of the source scans with the first-match rules -/

lemma applyUpdate_cons_not_matches (c : ChangeLogEntry) (rest : List ChangeLogEntry)
    (id : Nat) (h : matchesId id c = false) :
    applyUpdate (c :: rest) id = c :: applyUpdate rest id := by
  cases c with
  | insert i =>
    simp only [matchesId, decide_eq_false_iff_not] at h
    simp only [applyUpdate, scanForUpdate, if_neg h]
    cases hs : scanForUpdate rest id <;>
      simp [scanForUpdate.shift, hs, List.eraseIdx]
  | update u =>
    simp only [matchesId, decide_eq_false_iff_not] at h
    simp only [applyUpdate, scanForUpdate, if_neg h]
    cases hs : scanForUpdate rest id <;>
      simp [scanForUpdate.shift, hs, List.eraseIdx]
  | delete d =>
    simp only [applyUpdate, scanForUpdate]
    cases hs : scanForUpdate rest id <;>
      simp [scanForUpdate.shift, hs, List.eraseIdx]

lemma firstMatchApplyUpdate_cons_not_matches (c : ChangeLogEntry)
    (rest : List ChangeLogEntry) (id : Nat) (h : matchesId id c = false) :
    firstMatchApplyUpdate (c :: rest) id = c :: firstMatchApplyUpdate rest id := by
  have hc : c ≠ ChangeLogEntry.update id := by
    rintro rfl; simp [matchesId] at h
  simp only [firstMatchApplyUpdate, List.find?_cons, h]
  cases hf : rest.find? (matchesId id) with
  | none => rfl
  | some e =>
    have he := List.find?_some hf
    cases e with
    | insert i => rfl
    | update u =>
      have : u = id := by simpa [matchesId] using he
      subst this
      simp [List.erase_cons, hc, beq_iff_eq]
    | delete d => simp [matchesId] at he

/-- The source's update scan (changelog.rs lines 61-91) implements the
first-match rule. -/
lemma applyUpdate_eq_firstMatch (changes : List ChangeLogEntry) (id : Nat) :
    applyUpdate changes id = firstMatchApplyUpdate changes id := by
  induction changes with
  | nil => simp [applyUpdate, scanForUpdate, firstMatchApplyUpdate]
  | cons c rest ih =>
    by_cases h : matchesId id c = true
    · cases c with
      | insert i =>
        have : i = id := by simpa [matchesId] using h
        subst this
        simp [applyUpdate, scanForUpdate, firstMatchApplyUpdate, List.find?_cons, matchesId]
      | update u =>
        have : u = id := by simpa [matchesId] using h
        subst this
        simp [applyUpdate, scanForUpdate, firstMatchApplyUpdate, List.find?_cons, matchesId,
          List.eraseIdx, List.erase_cons]
      | delete d => simp [matchesId] at h
    · have h' : matchesId id c = false := by simpa using h
      rw [applyUpdate_cons_not_matches c rest id h',
        firstMatchApplyUpdate_cons_not_matches c rest id h', ih]

lemma applyDelete_cons_not_matches (c : ChangeLogEntry) (rest : List ChangeLogEntry)
    (id : Nat) (h : matchesId id c = false) :
    applyDelete (c :: rest) id = c :: applyDelete rest id := by
  cases c with
  | insert i =>
    simp only [matchesId, decide_eq_false_iff_not] at h
    simp only [applyDelete, scanForDelete, if_neg h]
    cases hs : scanForDelete rest id <;>
      simp [scanForDelete.shift, hs, List.eraseIdx]
  | update u =>
    simp only [matchesId, decide_eq_false_iff_not] at h
    simp only [applyDelete, scanForDelete, if_neg h]
    cases hs : scanForDelete rest id <;>
      simp [scanForDelete.shift, hs, List.eraseIdx]
  | delete d =>
    simp only [applyDelete, scanForDelete]
    cases hs : scanForDelete rest id <;>
      simp [scanForDelete.shift, hs, List.eraseIdx]

lemma firstMatchApplyDelete_cons_not_matches (c : ChangeLogEntry)
    (rest : List ChangeLogEntry) (id : Nat) (h : matchesId id c = false) :
    firstMatchApplyDelete (c :: rest) id = c :: firstMatchApplyDelete rest id := by
  have hcu : c ≠ ChangeLogEntry.update id := by
    rintro rfl; simp [matchesId] at h
  have hci : c ≠ ChangeLogEntry.insert id := by
    rintro rfl; simp [matchesId] at h
  simp only [firstMatchApplyDelete, List.find?_cons, h]
  cases hf : rest.find? (matchesId id) with
  | none => rfl
  | some e =>
    have he := List.find?_some hf
    cases e with
    | insert i =>
      have : i = id := by simpa [matchesId] using he
      subst this
      simp [List.erase_cons, hci, beq_iff_eq]
    | update u =>
      have : u = id := by simpa [matchesId] using he
      subst this
      simp [List.erase_cons, hcu, beq_iff_eq]
    | delete d => simp [matchesId] at he

/-- The source's delete scan (changelog.rs lines 95-123) implements the
first-match rule. -/
lemma applyDelete_eq_firstMatch (changes : List ChangeLogEntry) (id : Nat) :
    applyDelete changes id = firstMatchApplyDelete changes id := by
  induction changes with
  | nil => simp [applyDelete, scanForDelete, firstMatchApplyDelete]
  | cons c rest ih =>
    by_cases h : matchesId id c = true
    · cases c with
      | insert i =>
        have : i = id := by simpa [matchesId] using h
        subst this
        simp [applyDelete, scanForDelete, firstMatchApplyDelete, List.find?_cons, matchesId,
          List.erase_cons]
      | update u =>
        have : u = id := by simpa [matchesId] using h
        subst this
        simp [applyDelete, scanForDelete, firstMatchApplyDelete, List.find?_cons, matchesId,
          List.eraseIdx, List.erase_cons]
      | delete d => simp [matchesId] at h
    · have h' : matchesId id c = false := by simpa using h
      rw [applyDelete_cons_not_matches c rest id h',
        firstMatchApplyDelete_cons_not_matches c rest id h', ih]

lemma applyUpdate_funext : applyUpdate = firstMatchApplyUpdate := by
  funext changes id
  exact applyUpdate_eq_firstMatch changes id

lemma applyDelete_funext : applyDelete = firstMatchApplyDelete := by
  funext changes id
  exact applyDelete_eq_firstMatch changes id

/-- C1 (counterexample): replaying the serialized entries
`{updates:[5]}`, `{inserts:[5]}`, `{updates:[5]}` through
`ChangeLog::deserialize` yields `[Insert 5, Update 5]` — the final
update is appended although an `Insert(5)` is present in the accumulated
changes, because the scan acts on the first matching entry (the stale
`Update(5)`) instead; the spec's collapse rules as claimed would drop it
and yield `[Update 5, Insert 5]`. -/
theorem C1_counterexample :
    ChangeLog.replay [⟨[], [5], []⟩, ⟨[5], [], []⟩, ⟨[], [5], []⟩] =
      [ChangeLogEntry.insert 5, ChangeLogEntry.update 5] ∧
    specReplay [⟨[], [5], []⟩, ⟨[5], [], []⟩, ⟨[], [5], []⟩] =
      [ChangeLogEntry.update 5, ChangeLogEntry.insert 5] ∧
    ChangeLog.replay [⟨[], [5], []⟩, ⟨[5], [], []⟩, ⟨[], [5], []⟩] ≠
      specReplay [⟨[], [5], []⟩, ⟨[5], [], []⟩, ⟨[], [5], []⟩] := by
  refine ⟨by decide, by decide, by decide⟩

/-- C1 (amended): for every sequence of serialized change-log entries
replayed through `ChangeLog::deserialize`, the first-match collapse
rules hold: each Insert(id) is appended; an Update(id) or Delete(id)
acts on the first accumulated entry matching id among Inserts and
Updates — an Update is dropped by a first-matching Insert and otherwise
replaces a first-matching Update at the end of the list; a Delete
removes a first-matching Insert and is dropped, otherwise removes a
first-matching Update and is appended. -/
theorem C1_collapse_rules_first_match :
    ChangeLog.deserialize = firstMatchDeserialize ∧
    ∀ entries : List LogEntryData,
      ChangeLog.replay entries = entries.foldl firstMatchDeserialize [] := by
  have h : ChangeLog.deserialize = firstMatchDeserialize := by
    funext changes entry
    simp only [ChangeLog.deserialize, firstMatchDeserialize,
      applyUpdate_funext, applyDelete_funext]
  exact ⟨h, fun entries => by rw [ChangeLog.replay, h]⟩

/-! ### Blob store theorems (claim C2) -/

/-- C2 (counterexample): for the stored blob `[97, 98]` of length 2, the
range `[len, u32::MAX)` does not return an empty byte vector as claimed —
the out-of-range start is reset to offset 0 and the full file contents
come back. -/
theorem C2_counterexample :
    getRange (some [97, 98]) 2 (2 ^ 32 - 1) = .ok (some [97, 98]) ∧
    (some [97, 98] : Option (List Nat)) ≠ some [] := by
  exact ⟨rfl, by decide⟩

/-- C2 (amended): `get_range` returns `Ok(None)` exactly when the blob
file is absent; the range `[0, u32::MAX)` returns the full file
contents; a range starting at or past the file length has its offset
reset to 0 and returns the bytes `[0, min(end, len))` — in particular
`[len, u32::MAX)` returns the full file, not an empty vector; and a
range `[x, y)` with `x < len ≤ y` is clamped to end at `len`,
returning the bytes from `x` to `len`. -/
theorem C2_get_range_amended :
    (∀ start stop, getRange none start stop = .ok none) ∧
    (∀ (bytes : List Nat) (start stop : Nat),
      getRange (some bytes) start stop ≠ .ok none) ∧
    (∀ bytes : List Nat, getRange (some bytes) 0 (2 ^ 32 - 1) = .ok (some bytes)) ∧
    (∀ (bytes : List Nat) (start stop : Nat), bytes.length < 2 ^ 32 →
      bytes.length ≤ start →
      getRange (some bytes) start stop = .ok (some (bytes.take (min stop bytes.length)))) ∧
    (∀ (bytes : List Nat) (start stop : Nat), bytes.length < 2 ^ 32 →
      start < bytes.length → bytes.length ≤ stop →
      getRange (some bytes) start stop = .ok (some (bytes.drop start))) := by
  refine ⟨fun start stop => rfl, ?_, ?_, ?_, ?_⟩
  · intro bytes start stop h
    simp only [getRange] at h
    repeat' split at h
    all_goals simp_all [pure, Except.pure]
  · intro bytes
    simp [getRange, pure, Except.pure]
  · intro bytes start stop hlen hstart
    have hmod : bytes.length % 2 ^ 32 = bytes.length := Nat.mod_eq_of_lt hlen
    by_cases hz : start ≠ 0 ∨ stop ≠ 2 ^ 32 - 1
    · simp only [getRange, hmod, if_neg (by omega : ¬ start < bytes.length)]
      rw [if_pos hz]
      simp only [Nat.zero_le, Nat.sub_zero, Nat.add_zero, Nat.zero_add, List.drop_zero]
      rw [if_pos (by omega : min stop bytes.length ≤ bytes.length)]
      simp [pure, Except.pure]
    · push_neg at hz
      obtain ⟨h0, hM⟩ := hz
      subst h0
      have hlen0 : bytes.length = 0 := by omega
      have hb : bytes = [] := List.eq_nil_of_length_eq_zero hlen0
      subst hb hM
      rfl
  · intro bytes start stop hlen hstart hstop
    have hmod : bytes.length % 2 ^ 32 = bytes.length := Nat.mod_eq_of_lt hlen
    by_cases hz : start ≠ 0 ∨ stop ≠ 2 ^ 32 - 1
    · simp only [getRange, hmod]
      rw [if_pos hz, if_pos hstart]
      have hm : min stop bytes.length = bytes.length := by omega
      rw [if_neg (by omega : ¬ min stop bytes.length < start),
        if_pos (by omega : start + (min stop bytes.length - start) ≤ bytes.length), hm]
      have hdl : (bytes.drop start).length = bytes.length - start :=
        List.length_drop start bytes
      have htake : (bytes.drop start).take (bytes.length - start) = bytes.drop start := by
        rw [← hdl]
        exact List.take_length _
      simp [pure, Except.pure, htake]
    · push_neg at hz
      obtain ⟨h0, hM⟩ := hz
      subst h0 hM
      rfl

/-- C2 (witness): the amended theorem evaluated on the stored blob
`[97, 98, 99]`: the range `[1, 5)` clamps to the length and returns
`[98, 99]`, and the range `[3, 7)` resets to offset 0 and returns the
whole file. -/
theorem C2_get_range_amended_witness :
    getRange (some [97, 98, 99]) 1 5 = .ok (some [98, 99]) ∧
    getRange (some [97, 98, 99]) 3 7 = .ok (some [97, 98, 99]) := by
  constructor
  · exact C2_get_range_amended.2.2.2.2 [97, 98, 99] 1 5 (by decide) (by decide) (by decide)
  · exact C2_get_range_amended.2.2.2.1 [97, 98, 99] 3 7 (by decide) (by decide)

/-! ### Log compaction theorem (claim C3) -/

/-- The failing input for `compact_log` idempotence: two
(account, collection) groups with granular entries only below the
compaction point `up_to = 5`, and Raft entries only below index 5. -/
def c3FailingDb : LogsDb :=
  { changes := [((1, 1, 3), .entry [10] [] [] []), ((1, 2, 4), .entry [20] [] [] [])],
    rafts := [((1, 3), .item 1 [1]), ((1, 4), .item 1 [2])] }

/-- C3: `compact_log(5)` on `c3FailingDb` is not idempotent.  The first
call writes the first group's snapshot at change id 5, then bails out on
`has_changes == false`, discarding the second group's batch and skipping
the Raft phase.  The second call sees the snapshot written at 5, sets
`has_changes`, deletes the second group's remaining granular entry and
rewrites the Raft log with `last_term` still at the `u64::MAX` sentinel —
the very state the source's own `debug_assert_ne!(last_term, ChangeId::MAX)`
forbids — so it is not a no-op. -/
theorem C3_compact_log_not_idempotent :
    compact_log (compact_log c3FailingDb 5) 5 ≠ compact_log c3FailingDb 5 ∧
    (compact_log c3FailingDb 5).changes =
      [((1, 1, 5), .snapshot [10]), ((1, 2, 4), .entry [20] [] [] [])] ∧
    (compact_log c3FailingDb 5).rafts = c3FailingDb.rafts ∧
    (compact_log (compact_log c3FailingDb 5) 5).rafts =
      [((termIdMax, 5), .snapshot [([1, 2], [1])])] := by
  refine ⟨by decide, by decide, by decide, by decide⟩

/-! ### Mail set theorems: state mismatch (claim C4) -/

/-- C4: for every mail set request supplying `if_in_state`, if the state
captured before any mutation differs from it, the request fails with
`StateMismatch` and makes no changes — the error return precedes every
create, update, destroy and write, so no document, tag, index or
change-log state is touched (the embedding returns no successor store on
error). -/
theorem C4_state_mismatch (store : MailStoreState) (request : SetRequestM)
    (s : Nat) (hs : request.ifInState = some s) (hne : store.mailState ≠ s) :
    mail_set store request = .error .stateMismatch := by
  have hc : (Option.any (fun x => decide ¬store.mailState = x) request.ifInState) = true := by
    simp [hs, Option.any, hne]
  simp only [mail_set, hc, if_true]
  rfl

/-- C4 (witness): a concrete store at state 2 rejects a request pinned
to state 1. -/
theorem C4_state_mismatch_witness :
    mail_set
      { mailDocumentIds := [], mailboxDocumentIds := [],
        mailboxTags := fun _ => [], keywordTags := fun _ => [], mailState := 2 }
      { accountId := 1, ifInState := some 1, create := [], update := [],
        destroy := [] } = .error .stateMismatch :=
  C4_state_mismatch _ _ 1 rfl (by decide)

/-! ### Mail set theorems: destroy-list handling (claim C10) -/

/-- C10: a destroy-list entry that is not a JSON string is silently
skipped — the loop step leaves the accumulator untouched, so the whole
destroy phase is unchanged by removing it — and an entry that is a
string but fails to resolve to a JMAPId reference or does not name a
live document is reported in `notDestroyed` as `NotFound` with no other
effect. -/
theorem C10_destroy_handling :
    (∀ (documentIds : List Nat) (createdIds : List (String × Nat))
      (acc : DestroyAcc) (v : JSON), v.toStr = none →
      destroyStep documentIds createdIds acc v = acc) ∧
    (∀ (documentIds : List Nat) (createdIds : List (String × Nat)) (v : JSON)
      (l1 l2 : List JSON), v.toStr = none →
      processDestroys documentIds createdIds (l1 ++ v :: l2) =
        processDestroys documentIds createdIds (l1 ++ l2)) ∧
    (∀ (documentIds : List Nat) (createdIds : List (String × Nat))
      (acc : DestroyAcc) (s : String),
      (∀ jmapId, fromJmapRef s createdIds = .ok jmapId →
        jmapId % 2 ^ 32 ∉ documentIds) →
      destroyStep documentIds createdIds acc (.string s) =
        { acc with notDestroyed :=
            strMapInsert acc.notDestroyed s (.error .notFound "ID not found.") }) := by
  have hskip : ∀ (documentIds : List Nat) (createdIds : List (String × Nat))
      (acc : DestroyAcc) (v : JSON), v.toStr = none →
      destroyStep documentIds createdIds acc v = acc := by
    intro documentIds createdIds acc v hv
    simp [destroyStep, hv]
  refine ⟨hskip, ?_, ?_⟩
  · intro documentIds createdIds v l1 l2 hv
    simp only [processDestroys, List.foldl_append, List.foldl_cons]
    rw [hskip _ _ _ _ hv]
  · intro documentIds createdIds acc s hnl
    simp only [destroyStep, JSON.toStr]
    cases hr : fromJmapRef s createdIds with
    | ok jmapId =>
      have := hnl jmapId hr
      simp only []
      rw [if_neg this]
    | error e => simp

/-- C10 (witness): a boolean destroy entry is skipped outright, and an
unparsable string is reported `NotFound`. -/
theorem C10_destroy_handling_witness :
    destroyStep [1] [] ⟨[], [], [], []⟩ (JSON.bool true) = ⟨[], [], [], []⟩ ∧
    destroyStep [1] [] ⟨[], [], [], []⟩ (JSON.string "zz") =
      ⟨[], [("zz", .error .notFound "ID not found.")], [], []⟩ := by
  constructor
  · exact C10_destroy_handling.1 [1] [] _ _ rfl
  · exact C10_destroy_handling.2.2 [1] [] _ "zz"
      (fun j h => by
        rw [show fromJmapRef "zz" [] = .error "invalid JMAP id" from rfl] at h
        exact Except.noConfusion h)

/-! ### Get helper theorems (claim C8) -/

/-- C8: `GetHelper::new` fails with `RequestTooLarge` when a supplied
ids list exceeds `max_objects_in_get`; with no ids and a mapper it
fabricates the request-id list by feeding at most `max_objects_in_get`
live DocumentIds through the mapper (empty without touching the mapper
when no documents are live); and with no ids and no mapper the
request-id list is empty, so the response carries empty `list` and
`not_found` with no error. -/
theorem C8_get_helper (maxObjects : Nat) (liveIds : List Nat) (state : Nat)
    (defaultProps : List Nat) (request : GetRequestM)
    (idMapper : Option (List Nat → Except MethodError (List Nat))) :
    (∀ ids, request.ids = some ids → ids.length > maxObjects →
      getHelperNew maxObjects liveIds state defaultProps request idMapper =
        .error .requestTooLarge) ∧
    (∀ mapper, request.ids = none → idMapper = some mapper →
      Except.map (fun h => h.requestIds)
          (getHelperNew maxObjects liveIds state defaultProps request idMapper) =
        if liveIds ≠ [] then mapper (liveIds.take maxObjects) else .ok []) ∧
    (request.ids = none → idMapper = none →
      ∀ getFnc, ∃ h,
        getHelperNew maxObjects liveIds state defaultProps request idMapper = .ok h ∧
        h.requestIds = [] ∧ getHelperGet h getFnc = .ok ([], [])) := by
  refine ⟨?_, ?_, ?_⟩
  · intro ids hids hlen
    simp [getHelperNew, hids, hlen, throw, throwThe, MonadExceptOf.throw, Functor.map,
      Except.map]
  · intro mapper hids hmap
    simp only [getHelperNew, hids, hmap, Option.isSome_some, if_true]
    by_cases hl : liveIds = []
    · subst hl
      simp [Except.map, pure, Except.pure, bind, Except.bind]
    · cases hm : mapper (liveIds.take maxObjects) with
      | ok rids => simp [hm, Except.map, hl]
      | error e => simp [hm, Except.map, hl]
  · intro hids hmap getFnc
    simp only [getHelperNew, hids, hmap]
    exact ⟨_, rfl, rfl, rfl⟩

/-- C8 (witness): a two-id request against `max_objects_in_get = 1`
fails `RequestTooLarge`, and an absent ids list without a mapper yields
the empty response. -/
theorem C8_get_helper_witness :
    getHelperNew 1 [] 7 [0] ⟨1, some [1, 2], none⟩ none =
      .error .requestTooLarge ∧
    ∃ h, getHelperNew 1 [5] 7 [0] ⟨1, none, none⟩ none = .ok h ∧
      h.requestIds = [] ∧
      getHelperGet h (fun _ => .ok none) = .ok ([], []) := by
  constructor
  · exact (C8_get_helper 1 [] 7 [0] ⟨1, some [1, 2], none⟩ none).1 [1, 2] rfl (by decide)
  · exact (C8_get_helper 1 [5] 7 [0] ⟨1, none, none⟩ none).2.2 rfl rfl _

/-! ### JMAPId serialization theorems (claim C7) -/

lemma hexDigitVal_hexChar : ∀ d < 16, hexDigitVal (hexChar d) = some d := by decide

lemma isLowerHexDigit_hexChar : ∀ d < 16, isLowerHexDigit (hexChar d) = true := by decide

lemma parseHexAcc_eq (cs : List Char) :
    ∀ acc, parseHexAcc cs acc =
      if cs.all (fun c => (hexDigitVal c).isSome) then
        some (cs.foldl (fun a c => a * 16 + (hexDigitVal c).getD 0) acc)
      else none := by
  induction cs with
  | nil => intro acc; simp [parseHexAcc]
  | cons c rest ih =>
    intro acc
    cases hv : hexDigitVal c with
    | some d => simp [parseHexAcc, hv, ih, List.all_cons]
    | none => simp [parseHexAcc, hv, List.all_cons]

lemma hornerFoldl (ds : List Nat) :
    ∀ acc, ds.foldl (fun a d => a * 16 + d) acc =
      acc * 16 ^ ds.length + Nat.ofDigits 16 ds.reverse := by
  induction ds with
  | nil => intro acc; simp
  | cons d rest ih =>
    intro acc
    simp only [List.foldl_cons, List.reverse_cons, List.length_cons, ih]
    rw [Nat.ofDigits_append]
    simp [Nat.ofDigits]
    ring

lemma zerosFold (k : Nat) :
    (List.replicate k 0).foldl (fun a d => a * 16 + d) 0 = 0 := by
  induction k with
  | zero => rfl
  | succ k ih => simpa [List.replicate_succ] using ih

lemma hexDigitsAux_eq (fuel : Nat) :
    ∀ n, n ≤ fuel → hexDigitsAux fuel n = (Nat.digits 16 n).reverse.map hexChar := by
  induction fuel with
  | zero =>
    intro n hn
    interval_cases n
    simp [hexDigitsAux]
  | succ fuel ih =>
    intro n hn
    by_cases h0 : n = 0
    · subst h0
      simp [hexDigitsAux]
    · rw [hexDigitsAux, if_neg h0]
      rw [Nat.digits_def' (by norm_num : 1 < 16) (Nat.pos_of_ne_zero h0)]
      rw [List.reverse_cons, List.map_append]
      rw [ih (n / 16) (by
        have := Nat.div_lt_self (Nat.pos_of_ne_zero h0) (by norm_num : 1 < 16)
        omega)]
      rfl

lemma hexDigitsMinimal_eq (n : Nat) (h0 : n ≠ 0) :
    hexDigitsMinimal n = (Nat.digits 16 n).reverse.map hexChar := by
  rw [hexDigitsMinimal, if_neg h0]
  exact hexDigitsAux_eq n n le_rfl

lemma hexDigitsPadded_spec (n : Nat) :
    ∃ ds : List Nat, ds ≠ [] ∧ (∀ d ∈ ds, d < 16) ∧
      hexDigitsPadded n = ds.map hexChar ∧
      ds.foldl (fun a d => a * 16 + d) 0 = n := by
  by_cases h0 : n = 0
  · subst h0
    refine ⟨[0, 0], by simp, by decide, by decide, rfl⟩
  · refine ⟨List.replicate (2 - (hexDigitsMinimal n).length) 0 ++
      (Nat.digits 16 n).reverse, ?_, ?_, ?_, ?_⟩
    · have : Nat.digits 16 n ≠ [] := Nat.digits_ne_nil_iff_ne_zero.mpr h0
      simp [this]
    · intro d hd
      rcases List.mem_append.mp hd with h | h
      · simp [List.eq_of_mem_replicate h]
      · exact Nat.digits_lt_base (by norm_num) (List.mem_reverse.mp h)
    · simp only [hexDigitsPadded, hexDigitsMinimal_eq n h0, List.map_append,
        List.map_replicate]
      rfl
    · rw [List.foldl_append, zerosFold, hornerFoldl]
      simp [Nat.ofDigits_digits]

lemma hexChar_ne_plus : ∀ d < 16, hexChar d ≠ '+' := by decide

lemma parseHex_map (ds : List Nat) (hlt : ∀ d ∈ ds, d < 16) :
    parseHexAcc (ds.map hexChar) 0 = some (ds.foldl (fun a d => a * 16 + d) 0) := by
  rw [parseHexAcc_eq]
  have hall : ((ds.map hexChar).all fun c => (hexDigitVal c).isSome) = true := by
    rw [List.all_eq_true]
    intro c hc
    obtain ⟨d, hd, rfl⟩ := List.mem_map.mp hc
    simp [hexDigitVal_hexChar d (hlt d hd)]
  rw [hall]
  simp only [if_true, List.foldl_map]
  congr 1
  apply List.foldl_ext
  intro a d hd
  rw [hexDigitVal_hexChar d (hlt d hd)]
  rfl

lemma fromStrRadix_padded (n : Nat) (h : n < 2 ^ 64) :
    fromStrRadix16U64 (String.mk (hexDigitsPadded n)) = some n := by
  obtain ⟨ds, hne, hlt, hmap, hval⟩ := hexDigitsPadded_spec n
  cases ds with
  | nil => exact absurd rfl hne
  | cons d0 ds' =>
    have hd0 : d0 < 16 := hlt d0 (by simp)
    have hplus : hexChar d0 ≠ '+' := hexChar_ne_plus d0 hd0
    have hparse := parseHex_map (d0 :: ds') hlt
    simp only [fromStrRadix16U64, hmap, List.map_cons]
    rw [if_neg (by simp [hplus])]
    rw [if_neg hplus]
    rw [show (hexChar d0 :: List.map hexChar ds') = (d0 :: ds').map hexChar from rfl,
      hparse, hval]
    simp only [Option.bind_some, bind, Option.bind]
    rw [if_pos h]

lemma stripPlus_cons_ne (c : Char) (rest : List Char) (h : c ≠ '+') :
    stripPlus (c :: rest) = c :: rest := by
  rw [stripPlus.eq_def]
  split
  · next heq => rw [List.cons.injEq] at heq; exact absurd heq.1 h
  · rfl

lemma parse_chain_isSome (ds : List Char) :
    (Option.bind (parseHexAcc ds 0) (fun v => if v < 2 ^ 64 then some v else none)).isSome
      = ((ds.all fun c => (hexDigitVal c).isSome) && decide (hexValue ds < 2 ^ 64)) := by
  rw [parseHexAcc_eq]
  by_cases hall : (ds.all fun c => (hexDigitVal c).isSome) = true
  · rw [hall]
    simp only [if_true, Option.some_bind, Bool.true_and, hexValue]
    split
    · next hv =>
      have hv' : List.foldl (fun a c => a * 16 + (hexDigitVal c).getD 0) 0 ds <
          18446744073709551616 := by norm_num at hv ⊢; exact hv
      simp [hv']
    · next hv =>
      have hv' : ¬ List.foldl (fun a c => a * 16 + (hexDigitVal c).getD 0) 0 ds <
          18446744073709551616 := by norm_num at hv ⊢; exact hv
      simp [hv']
  · simp only [Bool.not_eq_true] at hall
    rw [hall]
    simp

lemma fromStrRadix_isSome (cs : List Char) :
    (fromStrRadix16U64 (String.mk cs)).isSome = validHexNumeralU64 cs := by
  cases cs with
  | nil => rfl
  | cons c rest =>
    by_cases hp : c = '+'
    · subst hp
      cases rest with
      | nil => rfl
      | cons r rs =>
        show (fromStrRadix16U64 (String.mk ('+' :: r :: rs))).isSome = _
        simp only [fromStrRadix16U64, true_and, if_true]
        rw [if_neg (by simp : ¬(r :: rs = []))]
        simp only [validHexNumeralU64, stripPlus]
        rw [show (do
            let v ← parseHexAcc (r :: rs) 0
            if v < 2 ^ 64 then some v else none : Option Nat) =
          Option.bind (parseHexAcc (r :: rs) 0)
            (fun v => if v < 2 ^ 64 then some v else none) from rfl]
        rw [parse_chain_isSome]
        simp [Bool.and_comm, Bool.and_assoc]
    · simp only [fromStrRadix16U64]
      rw [if_neg (by simp [hp]), if_neg hp]
      simp only [validHexNumeralU64, stripPlus_cons_ne c rest hp]
      rw [show (do
          let v ← parseHexAcc (c :: rest) 0
          if v < 2 ^ 64 then some v else none : Option Nat) =
        Option.bind (parseHexAcc (c :: rest) 0)
          (fun v => if v < 2 ^ 64 then some v else none) from rfl]
      rw [parse_chain_isSome]
      simp [Bool.and_comm, Bool.and_assoc]

/-- C7 (counterexample): `from_jmap_string "iA"` returns `Some(10)`
although the remainder `"A"` is not lowercase hex —
`u64::from_str_radix` accepts digits of either case, so the claimed
"iff valid lowercase hex" fails. -/
theorem C7_counterexample :
    from_jmap_string "iA" = some 10 ∧ "A".data.all isLowerHexDigit = false := by
  refine ⟨by decide, by decide⟩

/-- C7 (amended): `to_jmap_string(id)` renders `i` followed by
lowercase hexadecimal digits (zero-padded to at least two);
`from_jmap_string(s)` returns `Some` exactly when `s` begins with `i`
and the remainder is, after an optional leading `+`, a nonempty run of
hexadecimal digits of either case whose value fits in 64 bits; and
`from_jmap_string(to_jmap_string(id)) = Some(id)` for every 64-bit
id. -/
theorem C7_jmap_id_serialize :
    (∀ n : Nat, (to_jmap_string n).data = 'i' :: hexDigitsPadded n ∧
      (hexDigitsPadded n).all isLowerHexDigit = true) ∧
    (∀ s : String, (from_jmap_string s).isSome = true ↔
      ∃ rest, s.data = 'i' :: rest ∧ validHexNumeralU64 rest = true) ∧
    (∀ n : Nat, n < 2 ^ 64 → from_jmap_string (to_jmap_string n) = some n) := by
  refine ⟨?_, ?_, ?_⟩
  · intro n
    refine ⟨rfl, ?_⟩
    obtain ⟨ds, hne, hlt, hmap, hval⟩ := hexDigitsPadded_spec n
    rw [hmap, List.all_eq_true]
    intro c hc
    obtain ⟨d, hd, rfl⟩ := List.mem_map.mp hc
    exact isLowerHexDigit_hexChar d (hlt d hd)
  · intro s
    rcases hd : s.data with _ | ⟨c, rest⟩
    · simp only [from_jmap_string, hd]
      constructor
      · intro h; cases h
      · rintro ⟨rest, hr, -⟩; cases hr
    · simp only [from_jmap_string, hd]
      by_cases hc : c = 'i'
      · subst hc
        rw [if_pos rfl]
        rw [fromStrRadix_isSome rest]
        constructor
        · intro h; exact ⟨rest, rfl, h⟩
        · rintro ⟨rest', hr, hv⟩
          rw [List.cons.injEq] at hr
          rw [hr.2]
          exact hv
      · rw [if_neg hc]
        constructor
        · intro h; cases h
        · rintro ⟨rest', hr, -⟩
          rw [List.cons.injEq] at hr
          exact absurd hr.1 hc
  · intro n h
    show (match (String.mk ('i' :: hexDigitsPadded n)).data with
      | c :: rest => if c = 'i' then fromStrRadix16U64 (String.mk rest) else none
      | [] => none) = some n
    rw [show (String.mk ('i' :: hexDigitsPadded n)).data = 'i' :: hexDigitsPadded n from rfl]
    simp only [if_pos rfl]
    exact fromStrRadix_padded n h

/-- C7 (witness): the round-trip at id 3, whose rendering is `"i03"`. -/
theorem C7_jmap_id_serialize_witness :
    from_jmap_string (to_jmap_string 3) = some 3 ∧ to_jmap_string 3 = "i03" :=
  ⟨C7_jmap_id_serialize.2.2 3 (by norm_num), by decide⟩

/-! ### Raft commit theorems (claim C9) -/

lemma insertionSort_eq_multiset_sort (l : List Nat) :
    l.insertionSort (· ≤ ·) = Multiset.sort (· ≤ ·) (l : Multiset Nat) := by
  refine List.eq_of_perm_of_sorted ?_ (List.sorted_insertionSort _ l)
    (Multiset.sort_sorted _ _)
  exact (List.perm_insertionSort _ l).trans
    (Multiset.coe_eq_coe.mp (Multiset.sort_eq (· ≤ ·) (l : Multiset Nat))).symm

/-- C9: on each reply handled by `advance_commit_index`, the replying
in-shard peer's commit index is updated exactly when the reported value
is larger or the stored value is the unset sentinel; the function then
takes the median (the element at position ⌊n/2⌋ of the sorted
arrangement) of the multiset of wrapped `commit_index + 1` values of the
in-shard peers together with `uncommitted_index + 1`, and advances
`last_log` to `(median − 1, current term)` exactly when the median
exceeds `last_log.index + 1`, leaving it unchanged otherwise. -/
theorem C9_advance_commit_index (st : ClusterState) (peerId commitIndex : Nat) :
    advanceCommitIndex st peerId commitIndex =
      (let peers := st.peers.map (fun p =>
        if p.shardId = st.shardId ∧ p.peerId = peerId ∧
            (commitIndex > p.commitIndex ∨ p.commitIndex = logIndexMax) then
          { p with commitIndex := commitIndex }
        else p)
      let med := specMedian
        (((peers.filter (fun p => p.shardId = st.shardId)).map
            (fun p => wrapInc p.commitIndex) ++ [wrapInc st.uncommittedIndex] : List Nat))
      if wrapInc st.lastLogIndex < med then
        { st with peers := peers, lastLogIndex := wrapDec med, lastLogTerm := st.term }
      else { st with peers := peers }) := by
  simp only [advanceCommitIndex, specMedian]
  rw [insertionSort_eq_multiset_sort]
  rw [Multiset.coe_card]

/-! ### Mail set theorems: seen-keyword toggle (claim C6) -/

lemma keywordCurrentStep_snd (ops : PatchOps) (acc : List TagOp × Bool) (k : Tag) :
    (keywordCurrentStep ops acc k).2 =
      (acc.2 || (!(keywordKept ops k) && (k == Tag.static keywordSeen))) := by
  obtain ⟨doc, unread⟩ := acc
  simp only [keywordCurrentStep, keywordKept]
  by_cases hc : ops.keywordClearAll
  · by_cases hg : (tagOpGet ops.keywordOps k).getD false
    · simp [hc, hg]
    · simp [hc, hg]
  · by_cases hg : (tagOpGet ops.keywordOps k).getD true
    · simp [hc, hg]
    · simp [hc, hg]

lemma keywordCurrentFold_snd (ops : PatchOps) (cur : List Tag) :
    ∀ acc : List TagOp × Bool,
      (cur.foldl (keywordCurrentStep ops) acc).2 =
        (acc.2 || cur.any (fun k => !(keywordKept ops k) && (k == Tag.static keywordSeen))) := by
  induction cur with
  | nil => intro acc; simp
  | cons k rest ih =>
    intro acc
    rw [List.foldl_cons, ih, keywordCurrentStep_snd]
    simp [Bool.or_assoc]

lemma keywordOpStep_snd (cur : List Tag) (acc : List TagOp × Bool) (e : Tag × Bool) :
    (keywordOpStep cur acc e).2 =
      (acc.2 || (e.2 && decide (e.1 ∉ cur) && (e.1 == Tag.static keywordSeen))) := by
  obtain ⟨doc, unread⟩ := acc
  simp only [keywordOpStep]
  by_cases h2 : e.2
  · by_cases hm : e.1 ∈ cur
    · simp [h2, hm]
    · simp [h2, hm]
  · simp [h2]

lemma keywordOpFold_snd (cur : List Tag) (opsList : List (Tag × Bool)) :
    ∀ acc : List TagOp × Bool,
      (opsList.foldl (keywordOpStep cur) acc).2 =
        (acc.2 || opsList.any
          (fun e => e.2 && decide (e.1 ∉ cur) && (e.1 == Tag.static keywordSeen))) := by
  induction opsList with
  | nil => intro acc; simp
  | cons e rest ih =>
    intro acc
    rw [List.foldl_cons, ih, keywordOpStep_snd]
    simp [Bool.or_assoc]

lemma tagOpGet_mem (l : List (Tag × Bool)) (k : Tag) (v : Bool) :
    tagOpGet l k = some v → (k, v) ∈ l := by
  induction l with
  | nil => intro h; cases h
  | cons e rest ih =>
    intro h
    obtain ⟨k', v'⟩ := e
    by_cases hk : k' = k
    · subst hk
      rw [tagOpGet, if_pos rfl] at h
      cases h
      exact List.mem_cons_self _ _
    · rw [tagOpGet, if_neg hk] at h
      exact List.mem_cons_of_mem _ (ih h)

lemma hashSetInsert_mem (l : List Nat) (x y : Nat) (h : y ∈ l) :
    y ∈ hashSetInsert l x := by
  unfold hashSetInsert
  split
  · exact h
  · exact List.mem_append_left _ h

lemma hashSetInsert_self (l : List Nat) (x : Nat) : x ∈ hashSetInsert l x := by
  unfold hashSetInsert
  split
  · assumption
  · simp

lemma hashSetFold_mono (L : List Tag) :
    ∀ (init : List Nat) (y : Nat), y ∈ init →
      y ∈ L.foldl (fun ch t => hashSetInsert ch t.unwrapIdD) init := by
  induction L with
  | nil => intro init y h; exact h
  | cons t rest ih =>
    intro init y h
    exact ih _ y (hashSetInsert_mem _ _ _ h)

lemma hashSetFold_mem (L : List Tag) :
    ∀ (init : List Nat) (t : Tag), t ∈ L →
      t.unwrapIdD ∈ L.foldl (fun ch t => hashSetInsert ch t.unwrapIdD) init := by
  induction L with
  | nil => intro init t h; cases h
  | cons t0 rest ih =>
    intro init t h
    rcases List.mem_cons.mp h with h | h
    · subst h
      exact hashSetFold_mono rest _ _ (hashSetInsert_self _ _)
    · exact ih _ t h

lemma keywordSection_toggled (store : MailStoreState) (documentId : Nat) (ops : PatchOps)
    (doc1 : List TagOp) (changed1 : List Nat)
    (htog : seenToggled (store.keywordTags documentId) ops) :
    ∀ m ∈ store.mailboxTags documentId,
      m.unwrapIdD ∈ (keywordSection store documentId ops doc1 changed1).2 := by
  intro m hm
  have htaken : ops.keywordOps ≠ [] ∨ ops.keywordClearAll = true := by
    rcases htog with ⟨hmem, hkept⟩ | ⟨hmem, hget⟩
    · by_cases hc : ops.keywordClearAll
      · right; exact hc
      · left
        intro hnil
        rw [keywordKept, if_neg hc, hnil] at hkept
        simp [tagOpGet] at hkept
    · left
      intro hnil
      rw [hnil] at hget
      cases hget
  have hunread : ((ops.keywordOps.foldl (keywordOpStep (store.keywordTags documentId))
      ((store.keywordTags documentId).foldl (keywordCurrentStep ops) ([], false))).2) = true := by
    rw [keywordOpFold_snd, keywordCurrentFold_snd]
    rcases htog with ⟨hmem, hkept⟩ | ⟨hmem, hget⟩
    · have h1 : ((store.keywordTags documentId).any
          (fun k => !(keywordKept ops k) && (k == Tag.static keywordSeen))) = true := by
        rw [List.any_eq_true]
        exact ⟨Tag.static keywordSeen, hmem, by simp [hkept]⟩
      simp [h1]
    · have hin : (Tag.static keywordSeen, true) ∈ ops.keywordOps :=
        tagOpGet_mem _ _ _ hget
      have h2 : (ops.keywordOps.any
          (fun e => e.2 && decide (e.1 ∉ store.keywordTags documentId) &&
            (e.1 == Tag.static keywordSeen))) = true := by
        rw [List.any_eq_true]
        exact ⟨(Tag.static keywordSeen, true), hin, by simp [hmem]⟩
      simp [h2]
      exact Or.inr ⟨hin, hmem⟩
  rw [keywordSection, if_pos htaken]
  simp only [hunread, if_true]
  exact hashSetFold_mem _ _ _ hm

/-- C6: for every successfully applied mail update whose patch adds or
removes the seen keyword on the message (removal either explicit or via
a clear-all keywords replacement), every mailbox currently containing
the message is logged as a child-update of the Mailbox collection in the
update's write-batch contribution, alongside the Update logged for the
Mail document itself. -/
theorem C6_seen_toggle_child_updates (store : MailStoreState)
    (documentIds mailboxDocIds : List Nat) (createdIds : List (String × Nat))
    (destroy : List JSON) (jmapIdStr : String) (value : JSON)
    (props : List (String × JSON)) (jmapId : Nat) (ops : PatchOps)
    (o : UpdateSuccess)
    (hparse : from_jmap_string jmapIdStr = some jmapId)
    (hobj : value.toObject = some props)
    (hcol : collectPatchOps createdIds props = .ok ops)
    (hok : processUpdate store documentIds mailboxDocIds createdIds destroy
      jmapIdStr value = .ok o)
    (htog : seenToggled (store.keywordTags (jmapId % 2 ^ 32)) ops) :
    (∀ m ∈ store.mailboxTags (jmapId % 2 ^ 32),
      LogChange.childUpdate .mailbox m.unwrapIdD ∈ o.logs) ∧
    LogChange.update .mail o.jmapId ∈ o.logs := by
  simp only [processUpdate, hparse, hobj, bind, Except.bind, pure, Except.pure] at hok
  rw [hcol] at hok
  split at hok
  · exact absurd hok (by simp [throw, throwThe, MonadExceptOf.throw])
  · split at hok
    · exact absurd hok (by simp [throw, throwThe, MonadExceptOf.throw])
    · simp only [] at hok
      cases hM : mailboxSection store (jmapId % 2 ^ 32) mailboxDocIds ops with
      | error e =>
        rw [hM] at hok
        cases hok
      | ok part =>
        rw [hM] at hok
        simp only [] at hok
        split at hok
        · exact absurd hok (by simp [throw, throwThe, MonadExceptOf.throw])
        · rw [Except.ok.injEq] at hok
          subst hok
          constructor
          · intro m hm
            simp only [List.mem_append]
            left
            exact List.mem_map_of_mem _
              (keywordSection_toggled store (jmapId % 2 ^ 32) ops part.1 part.2 htog m hm)
          · simp

def c6Store : MailStoreState :=
  { mailDocumentIds := [1], mailboxDocumentIds := [3, 4],
    mailboxTags := fun d => if d = 1 then [Tag.id 3, Tag.id 4] else [],
    keywordTags := fun d => if d = 1 then [Tag.static keywordSeen] else [],
    mailState := 0 }

/-- C6 (witness): a message in mailboxes 3 and 4 carrying the seen
keyword; clearing `keywords/$seen` logs child-updates for both
mailboxes alongside the Mail update. -/
theorem C6_seen_toggle_witness :
    (∀ m ∈ c6Store.mailboxTags 1,
      LogChange.childUpdate CollectionM.mailbox m.unwrapIdD ∈
        [LogChange.childUpdate CollectionM.mailbox 3,
         LogChange.childUpdate CollectionM.mailbox 4,
         LogChange.update CollectionM.mail 1]) ∧
    LogChange.update CollectionM.mail 1 ∈
      [LogChange.childUpdate CollectionM.mailbox 3,
       LogChange.childUpdate CollectionM.mailbox 4,
       LogChange.update CollectionM.mail 1] :=
  C6_seen_toggle_child_updates c6Store [1] [3, 4] [] [] "i01"
    (JSON.object [("keywords/$seen", JSON.bool false)])
    [("keywords/$seen", JSON.bool false)] 1
    ⟨[(Tag.static keywordSeen, false)], false, [], false⟩
    { documentId := 1, jmapId := 1,
      document := [⟨.keyword, .static keywordSeen, true⟩],
      changedMailboxes := [3, 4],
      logs := [.childUpdate .mailbox 3, .childUpdate .mailbox 4, .update .mail 1] }
    (by decide) rfl rfl rfl (Or.inl ⟨by decide, by decide⟩)

lemma applyTagOps_append (cur : List Tag) (a b : List TagOp) (f : MessageField) :
    applyTagOps cur (a ++ b) f = applyTagOps (applyTagOps cur a f) b f := by
  simp [applyTagOps, List.foldl_append]

lemma applyTagOps_other_field (cur : List Tag) (ops : List TagOp) (f : MessageField)
    (h : ∀ op ∈ ops, op.field ≠ f) : applyTagOps cur ops f = cur := by
  induction ops generalizing cur with
  | nil => rfl
  | cons op rest ih =>
    rw [applyTagOps, List.foldl_cons]
    rw [if_neg (h op (List.mem_cons_self _ _))]
    exact ih cur (fun op hop => h op (List.mem_cons_of_mem _ hop))

lemma applyTagOps_no_clear_ne_nil (cur : List Tag) (ops : List TagOp)
    (f : MessageField) (h : ∀ op ∈ ops, op.field = f → op.clear = false)
    (hne : cur ≠ []) : applyTagOps cur ops f ≠ [] := by
  induction ops generalizing cur with
  | nil => exact hne
  | cons op rest ih =>
    rw [applyTagOps, List.foldl_cons]
    by_cases hf : op.field = f
    · rw [if_pos hf, h op (List.mem_cons_self _ _) hf]
      simp only [Bool.false_eq_true, if_false]
      by_cases hm : op.tag ∈ cur
      · rw [if_pos hm]
        exact ih cur (fun o ho => h o (List.mem_cons_of_mem _ ho)) hne
      · rw [if_neg hm]
        exact ih _ (fun o ho => h o (List.mem_cons_of_mem _ ho)) (by simp)
    · rw [if_neg hf]
      exact ih cur (fun o ho => h o (List.mem_cons_of_mem _ ho)) hne

lemma applyTagOps_tag_then_no_clear (cur : List Tag) (ops : List TagOp)
    (f : MessageField) (h : ∀ op ∈ ops, op.field = f ∧ op.clear = false)
    (hne : ops ≠ []) : applyTagOps cur ops f ≠ [] := by
  cases ops with
  | nil => exact absurd rfl hne
  | cons op rest =>
    obtain ⟨hf, hc⟩ := h op (List.mem_cons_self _ _)
    rw [applyTagOps, List.foldl_cons, if_pos hf, hc]
    simp only [Bool.false_eq_true, if_false]
    have hrest : ∀ o ∈ rest, o.field = f → o.clear = false :=
      fun o ho _ => (h o (List.mem_cons_of_mem _ ho)).2
    by_cases hm : op.tag ∈ cur
    · rw [if_pos hm]
      exact applyTagOps_no_clear_ne_nil cur rest f hrest
        (fun hnil => by rw [hnil] at hm; cases hm)
    · rw [if_neg hm]
      exact applyTagOps_no_clear_ne_nil _ rest f hrest (by simp)

lemma applyTagOps_clears (S : List Tag) :
    ∀ cur : List Tag,
      applyTagOps cur (S.map (fun m => ⟨.mailbox, m, true⟩)) .mailbox =
        cur.filter (fun t => t ∉ S) := by
  induction S with
  | nil =>
    intro cur
    simp [applyTagOps]
  | cons s S ih =>
    intro cur
    rw [List.map_cons, applyTagOps, List.foldl_cons]
    simp only [if_pos rfl, if_true]
    rw [show (List.foldl _ (List.filter (fun t => t ≠ s) cur)
      (S.map (fun m => (⟨.mailbox, m, true⟩ : TagOp)))) =
      applyTagOps (cur.filter (fun t => t ≠ s)) (S.map (fun m => ⟨.mailbox, m, true⟩))
        .mailbox from rfl]
    rw [ih]
    rw [List.filter_filter]
    apply List.filter_congr
    intro t ht
    simp only [List.mem_cons, not_or]
    rw [Bool.and_comm]
    simp

lemma mailboxCurrentFold_fst (ops : PatchOps) (cur : List Tag) :
    ∀ (doc : List TagOp) (ch : List Nat) (has : Bool),
      (cur.foldl (mailboxCurrentStep ops) (doc, ch, has)).1 =
        doc ++ (cur.filter (fun m => !(mailboxKept ops m))).map
          (fun m => ⟨.mailbox, m, true⟩) := by
  induction cur with
  | nil => intro doc ch has; simp
  | cons m rest ih =>
    intro doc ch has
    rw [List.foldl_cons]
    by_cases hk : mailboxKept ops m
    · have hstep : mailboxCurrentStep ops (doc, ch, has) m =
          if ops.mailboxClearAll then (doc, ch, has) else (doc, ch, true) := by
        rw [mailboxKept] at hk
        simp only [mailboxCurrentStep]
        split at hk
        · simp [hk, *]
        · simp [hk, *]
      rw [List.filter_cons_of_neg (by simp [hk])]
      by_cases hc : ops.mailboxClearAll
      · rw [hstep, if_pos hc, ih]
      · rw [hstep, if_neg hc, ih]
    · have hstep : mailboxCurrentStep ops (doc, ch, has) m =
          (doc ++ [⟨.mailbox, m, true⟩], hashSetInsert ch m.unwrapIdD, has) := by
        rw [mailboxKept] at hk
        simp only [mailboxCurrentStep]
        split at hk
        · simp [hk, *]
        · simp [hk, *]
      rw [hstep, ih, List.filter_cons_of_pos (by simp [hk])]
      simp

lemma mailboxCurrentFold_has (ops : PatchOps) (cur : List Tag) :
    ∀ (doc : List TagOp) (ch : List Nat) (has : Bool),
      (cur.foldl (mailboxCurrentStep ops) (doc, ch, has)).2.2 =
        (has || (!ops.mailboxClearAll && cur.any (fun m => mailboxKept ops m))) := by
  induction cur with
  | nil => intro doc ch has; simp
  | cons m rest ih =>
    intro doc ch has
    rw [List.foldl_cons]
    by_cases hk : mailboxKept ops m
    · by_cases hc : ops.mailboxClearAll
      · have hstep : mailboxCurrentStep ops (doc, ch, has) m = (doc, ch, has) := by
          rw [mailboxKept, if_pos hc] at hk
          simp [mailboxCurrentStep, hc, hk]
        rw [hstep, ih]
        simp [hc, hk]
      · have hstep : mailboxCurrentStep ops (doc, ch, has) m = (doc, ch, true) := by
          rw [mailboxKept, if_neg hc] at hk
          simp [mailboxCurrentStep, hc, hk]
        rw [hstep, ih]
        simp [hc, hk]
    · have hstep : mailboxCurrentStep ops (doc, ch, has) m =
          (doc ++ [⟨.mailbox, m, true⟩], hashSetInsert ch m.unwrapIdD, has) := by
        rw [mailboxKept] at hk
        simp only [mailboxCurrentStep]
        split at hk
        · simp [hk, *]
        · simp [hk, *]
      rw [hstep, ih]
      simp [hk, Bool.and_or_distrib_left]

/-- The keys of a tag-op map. -/
def tagOpKeys (l : List (Tag × Bool)) : List Tag := l.map Prod.fst

lemma tagOpInsert_keys_sub (l : List (Tag × Bool)) (k : Tag) (v : Bool) :
    ∀ k', k' ∈ tagOpKeys (tagOpInsert l k v) → k' = k ∨ k' ∈ tagOpKeys l := by
  induction l with
  | nil => intro k' h; simp [tagOpInsert, tagOpKeys] at h; exact Or.inl h
  | cons e rest ih =>
    intro k' h
    obtain ⟨ka, va⟩ := e
    by_cases hk : ka = k
    · subst hk
      rw [tagOpInsert, if_pos rfl] at h
      simp only [tagOpKeys, List.map_cons, List.mem_cons] at h
      rcases h with h | h
      · exact Or.inl h
      · exact Or.inr (by simp [tagOpKeys, h])
    · rw [tagOpInsert, if_neg hk] at h
      simp only [tagOpKeys, List.map_cons, List.mem_cons] at h
      rcases h with h | h
      · exact Or.inr (by simp [tagOpKeys, h])
      · rcases ih k' (by simpa [tagOpKeys] using h) with h' | h'
        · exact Or.inl h'
        · exact Or.inr (by simp [tagOpKeys] at h' ⊢; exact Or.inr h')

lemma tagOpInsert_nodup (l : List (Tag × Bool)) (k : Tag) (v : Bool)
    (h : (tagOpKeys l).Nodup) : (tagOpKeys (tagOpInsert l k v)).Nodup := by
  induction l with
  | nil => simp [tagOpInsert, tagOpKeys]
  | cons e rest ih =>
    obtain ⟨ka, va⟩ := e
    simp only [tagOpKeys, List.map_cons, List.nodup_cons] at h
    obtain ⟨hka, hrest⟩ := h
    by_cases hk : ka = k
    · subst hk
      rw [tagOpInsert, if_pos rfl]
      show (tagOpKeys ((ka, v) :: rest)).Nodup
      simp only [tagOpKeys, List.map_cons, List.nodup_cons]
      exact ⟨hka, hrest⟩
    · rw [tagOpInsert, if_neg hk]
      simp only [tagOpKeys, List.map_cons, List.nodup_cons]
      refine ⟨?_, ih hrest⟩
      intro hmem
      rcases tagOpInsert_keys_sub rest k v ka (by simpa [tagOpKeys] using hmem) with h' | h'
      · exact hk h'
      · exact hka (by simpa [tagOpKeys] using h')

lemma tagOpGet_of_mem_nodup (l : List (Tag × Bool)) (k : Tag) (v : Bool)
    (hnd : (tagOpKeys l).Nodup) (hmem : (k, v) ∈ l) : tagOpGet l k = some v := by
  induction l with
  | nil => cases hmem
  | cons e rest ih =>
    obtain ⟨ka, va⟩ := e
    simp only [tagOpKeys, List.map_cons, List.nodup_cons] at hnd
    obtain ⟨hka, hrest⟩ := hnd
    rcases List.mem_cons.mp hmem with h | h
    · rw [Prod.mk.injEq] at h
      obtain ⟨h1, h2⟩ := h
      subst h1 h2
      rw [tagOpGet, if_pos rfl]
    · by_cases hk : ka = k
      · subst hk
        exact absurd (by simpa [tagOpKeys] using List.mem_map_of_mem Prod.fst h) hka
      · rw [tagOpGet, if_neg hk]
        exact ih hrest h

lemma foldlM_mailboxPatchStep_nodup (createdIds : List (String × Nat))
    (obj : List (String × JSON)) :
    ∀ ops ops', (tagOpKeys ops).Nodup →
      obj.foldlM (mailboxPatchStep createdIds) ops = .ok ops' →
      (tagOpKeys ops').Nodup := by
  induction obj with
  | nil =>
    intro ops ops' hnd h
    cases h
    exact hnd
  | cons e rest ih =>
    intro ops ops' hnd h
    rw [List.foldlM_cons] at h
    cases hs : mailboxPatchStep createdIds ops e with
    | error er => rw [hs] at h; cases h
    | ok ops1 =>
      rw [hs] at h
      refine ih ops1 ops' ?_ h
      unfold mailboxPatchStep at hs
      split at hs
      · cases hs; exact tagOpInsert_nodup _ _ _ hnd
      · cases hs
      · cases hs; exact hnd

lemma collectPatchField_mailbox_nodup (createdIds : List (String × Nat))
    (acc : PatchOps) (f : String) (v : JSON) (res : PatchOps)
    (h : collectPatchField createdIds acc f v = .ok res)
    (hnd : (tagOpKeys acc.mailboxOps).Nodup) : (tagOpKeys res.mailboxOps).Nodup := by
  unfold collectPatchField at h
  split at h
  · split at h
    · split at h
      · cases h; exact hnd
      · cases h
    · split at h
      · split at h
        · cases h
          exact foldlM_mailboxPatchStep_nodup createdIds _ _ _ hnd (by assumption)
        · cases h
      · cases h
    · cases h
  · split at h
    · cases h
    · split at h <;>
        first
          | (split at h <;>
              first
                | (cases h; exact tagOpInsert_nodup _ _ _ hnd)
                | cases h)
          | cases h
    · split at h <;>
        first
          | (cases h; exact hnd)
          | cases h
  · cases h

lemma collectPatchOps_mailbox_nodup (createdIds : List (String × Nat))
    (props : List (String × JSON)) (ops : PatchOps)
    (h : collectPatchOps createdIds props = .ok ops) :
    (tagOpKeys ops.mailboxOps).Nodup := by
  have main : ∀ (ps : List (String × JSON)) (acc res : PatchOps),
      (tagOpKeys acc.mailboxOps).Nodup →
      ps.foldlM (fun acc e => collectPatchField createdIds acc e.1 e.2) acc = .ok res →
      (tagOpKeys res.mailboxOps).Nodup := by
    intro ps
    induction ps with
    | nil =>
      intro acc res hnd hh
      cases hh
      exact hnd
    | cons e rest ih =>
      intro acc res hnd hh
      rw [List.foldlM_cons] at hh
      cases hs : collectPatchField createdIds acc e.1 e.2 with
      | error er => rw [hs] at hh; cases hh
      | ok acc1 =>
        rw [hs] at hh
        exact ih acc1 res (collectPatchField_mailbox_nodup _ _ _ _ _ hs hnd) hh
  exact main props _ ops (by simp [tagOpKeys]) h

lemma mailboxOpFold_ok (mailboxDocIds : List Nat) (cur : List Tag)
    (opsList : List (Tag × Bool)) :
    ∀ (acc res : List TagOp × List Nat × Bool),
      opsList.foldlM (mailboxOpStep mailboxDocIds cur) acc = .ok res →
      ∃ δ, res.1 = acc.1 ++ δ ∧
        (∀ op ∈ δ, op.field = .mailbox ∧ op.clear = false) ∧
        (res.2.2 = true → acc.2.2 = true ∨ δ ≠ [] ∨
          ∃ t, t ∈ cur ∧ (t, true) ∈ opsList) := by
  induction opsList with
  | nil =>
    intro acc res h
    cases h
    exact ⟨[], by simp, by simp, fun h2 => Or.inl h2⟩
  | cons e rest ih =>
    intro acc res h
    obtain ⟨adoc, ach, ahas⟩ := acc
    rw [List.foldlM_cons] at h
    cases hs : mailboxOpStep mailboxDocIds cur (adoc, ach, ahas) e with
    | error er => rw [hs] at h; cases h
    | ok acc1 =>
      rw [hs] at h
      obtain ⟨δ', h1, h2, h3⟩ := ih acc1 res h
      unfold mailboxOpStep at hs
      simp only [] at hs
      split at hs
      · -- e.2 = true
        have he2 : e.2 = true := by assumption
        split at hs
        · -- mailbox exists
          split at hs
          · -- e.1 not currently tagged: op appended, has := true
            rw [Except.ok.injEq] at hs
            subst hs
            refine ⟨⟨.mailbox, e.1, false⟩ :: δ', by simp [h1], ?_, ?_⟩
            · intro op hop
              rcases List.mem_cons.mp hop with h' | h'
              · subst h'; exact ⟨rfl, rfl⟩
              · exact h2 op h'
            · intro _
              right; left; simp
          · -- already tagged: has := true, no op
            rw [Except.ok.injEq] at hs
            subst hs
            refine ⟨δ', by simpa using h1, h2, ?_⟩
            intro _
            right; right
            refine ⟨e.1, by simpa using (by assumption : ¬ e.1 ∉ cur), ?_⟩
            have : e = (e.1, true) := by
              obtain ⟨t, b⟩ := e
              simp at he2
              simp [he2]
            rw [← this]
            exact List.mem_cons_self _ _
        · cases hs
      · -- e.2 = false: accumulator unchanged
        rw [Except.ok.injEq] at hs
        subst hs
        refine ⟨δ', h1, h2, ?_⟩
        intro h4
        rcases h3 h4 with h' | h' | ⟨t', ht', hmem⟩
        · exact Or.inl h'
        · exact Or.inr (Or.inl h')
        · exact Or.inr (Or.inr ⟨t', ht', List.mem_cons_of_mem _ hmem⟩)

lemma mailboxOpFold_error_msg (mailboxDocIds : List Nat) (cur : List Tag)
    (opsList : List (Tag × Bool)) :
    ∀ (acc : List TagOp × List Nat × Bool) (e : SetErr),
      opsList.foldlM (mailboxOpStep mailboxDocIds cur) acc = .error e →
      ∃ p, e = .invalidProperty p "Mailbox does not exist." := by
  induction opsList with
  | nil => intro acc e h; cases h
  | cons op rest ih =>
    intro acc e h
    obtain ⟨adoc, ach, ahas⟩ := acc
    rw [List.foldlM_cons] at h
    cases hs : mailboxOpStep mailboxDocIds cur (adoc, ach, ahas) op with
    | ok acc1 =>
      rw [hs] at h
      exact ih acc1 e h
    | error er =>
      rw [hs] at h
      cases h
      unfold mailboxOpStep at hs
      simp only [] at hs
      split at hs
      · split at hs
        · split at hs
          · cases hs
          · cases hs
        · rw [Except.error.injEq] at hs
          exact ⟨_, hs.symm⟩
      · cases hs

lemma mailboxOpFold_error_exists (mailboxDocIds : List Nat) (cur : List Tag)
    (opsList : List (Tag × Bool)) (t : Tag)
    (hmem : (t, true) ∈ opsList) (hnot : t.unwrapIdD ∉ mailboxDocIds) :
    ∀ acc, ∃ e, opsList.foldlM (mailboxOpStep mailboxDocIds cur) acc = .error e := by
  induction opsList with
  | nil => cases hmem
  | cons op rest ih =>
    intro acc
    obtain ⟨adoc, ach, ahas⟩ := acc
    rw [List.foldlM_cons]
    cases hs : mailboxOpStep mailboxDocIds cur (adoc, ach, ahas) op with
    | error er => exact ⟨er, rfl⟩
    | ok acc1 =>
      rcases List.mem_cons.mp hmem with h | h
      · subst h
        unfold mailboxOpStep at hs
        simp only [if_pos rfl] at hs
        rw [if_neg hnot] at hs
        cases hs
      · exact ih h acc1

lemma mailboxKept_of_get_true (ops : PatchOps) (t : Tag)
    (hget : tagOpGet ops.mailboxOps t = some true) : mailboxKept ops t = true := by
  rw [mailboxKept]
  split <;> simp [hget]

lemma keywordCurrentFold_fields (ops : PatchOps) (cur : List Tag) :
    ∀ (acc : List TagOp × Bool), (∀ op ∈ acc.1, op.field = MessageField.keyword) →
      ∀ op ∈ (cur.foldl (keywordCurrentStep ops) acc).1, op.field = MessageField.keyword := by
  induction cur with
  | nil => intro acc hacc; exact hacc
  | cons k rest ih =>
    intro acc hacc
    rw [List.foldl_cons]
    apply ih
    obtain ⟨doc, unread⟩ := acc
    simp only [keywordCurrentStep]
    split
    · split
      · intro op hop
        rcases List.mem_append.mp hop with h | h
        · exact hacc op h
        · simp only [List.mem_singleton] at h
          subst h
          rfl
      · exact hacc
    · split
      · intro op hop
        rcases List.mem_append.mp hop with h | h
        · exact hacc op h
        · simp only [List.mem_singleton] at h
          subst h
          rfl
      · exact hacc

lemma keywordOpFold_fields (cur : List Tag) (opsList : List (Tag × Bool)) :
    ∀ (acc : List TagOp × Bool), (∀ op ∈ acc.1, op.field = MessageField.keyword) →
      ∀ op ∈ (opsList.foldl (keywordOpStep cur) acc).1, op.field = MessageField.keyword := by
  induction opsList with
  | nil => intro acc hacc; exact hacc
  | cons e rest ih =>
    intro acc hacc
    rw [List.foldl_cons]
    apply ih
    obtain ⟨doc, unread⟩ := acc
    simp only [keywordOpStep]
    split
    · split
      · intro op hop
        rcases List.mem_append.mp hop with h | h
        · exact hacc op h
        · simp only [List.mem_singleton] at h
          subst h
          rfl
      · exact hacc
    · exact hacc

lemma keywordSection_fst (store : MailStoreState) (documentId : Nat)
    (ops : PatchOps) (doc1 : List TagOp) (changed1 : List Nat) :
    ∃ κ, (keywordSection store documentId ops doc1 changed1).1 = doc1 ++ κ ∧
      ∀ op ∈ κ, op.field = MessageField.keyword := by
  rw [keywordSection]
  split
  · refine ⟨_, rfl, ?_⟩
    apply keywordOpFold_fields
    apply keywordCurrentFold_fields
    intro op hop
    cases hop
  · exact ⟨[], by simp, by simp⟩

lemma mailboxSection_ok_nonempty (store : MailStoreState) (documentId : Nat)
    (mailboxDocIds : List Nat) (ops : PatchOps) (part : List TagOp × List Nat)
    (hnd : (tagOpKeys ops.mailboxOps).Nodup)
    (hok : mailboxSection store documentId mailboxDocIds ops = .ok part)
    (hcur : store.mailboxTags documentId ≠ []) :
    applyTagOps (store.mailboxTags documentId) part.1 .mailbox ≠ [] := by
  rw [mailboxSection] at hok
  split at hok
  · simp only [] at hok
    split at hok
    next acc2 hF =>
      split at hok
      · cases hok
      · next hhas =>
        rw [Except.ok.injEq] at hok
        subst hok
        have hhas2 : acc2.2.2 = true := not_not.mp hhas
        obtain ⟨δ, hδ1, hδ2, hδ3⟩ := mailboxOpFold_ok mailboxDocIds _ _ _ _ hF
        set cur := store.mailboxTags documentId with hcurdef
        have hfst : (cur.foldl (mailboxCurrentStep ops) ([], [], false)).1 =
            (cur.filter (fun m => !(mailboxKept ops m))).map
              (fun m => ⟨.mailbox, m, true⟩) := by
          rw [mailboxCurrentFold_fst]
          simp
        have hA1 : applyTagOps cur
            ((cur.foldl (mailboxCurrentStep ops) ([], [], false)).1) .mailbox =
            cur.filter (fun t => mailboxKept ops t) := by
          rw [hfst, applyTagOps_clears]
          apply List.filter_congr
          intro t ht
          simp only [List.mem_filter, decide_eq_true_eq, decide_eq_decide]
          by_cases hk : mailboxKept ops t = true <;> simp [hk, ht]
        have hgoal : applyTagOps cur acc2.1 .mailbox ≠ [] := by
          rw [hδ1, applyTagOps_append, hA1]
          have hkeep_ne : ∀ t, t ∈ cur → mailboxKept ops t = true →
              cur.filter (fun t => mailboxKept ops t) ≠ [] := by
            intro t ht hk hnil
            have : t ∈ cur.filter (fun t => mailboxKept ops t) :=
              List.mem_filter.mpr ⟨ht, by simp [hk]⟩
            rw [hnil] at this
            cases this
          rcases hδ3 hhas2 with hcase | hcase | ⟨t, htc, htm⟩
          · rw [mailboxCurrentFold_has] at hcase
            simp only [Bool.false_or, Bool.and_eq_true, List.any_eq_true,
              decide_eq_true_eq] at hcase
            obtain ⟨-, t, ht, hk⟩ := hcase
            exact applyTagOps_no_clear_ne_nil _ _ _
              (fun op hop hf => (hδ2 op hop).2) (hkeep_ne t ht hk)
          · exact applyTagOps_tag_then_no_clear _ _ _ hδ2 hcase
          · have hget : tagOpGet ops.mailboxOps t = some true :=
              tagOpGet_of_mem_nodup _ _ _ hnd htm
            exact applyTagOps_no_clear_ne_nil _ _ _
              (fun op hop hf => (hδ2 op hop).2)
              (hkeep_ne t htc (mailboxKept_of_get_true ops t hget))
        simpa using hgoal
    next e hF => cases hok
  · rw [Except.ok.injEq] at hok
    subst hok
    simpa [applyTagOps] using hcur

lemma mailboxSection_nonexistent_error (store : MailStoreState) (documentId : Nat)
    (mailboxDocIds : List Nat) (ops : PatchOps) (m : Nat)
    (hmem : (Tag.id m, true) ∈ ops.mailboxOps) (hnot : m ∉ mailboxDocIds) :
    ∃ p, mailboxSection store documentId mailboxDocIds ops =
      .error (.invalidProperty p "Mailbox does not exist.") := by
  have hne : ops.mailboxOps ≠ [] := by
    intro h
    rw [h] at hmem
    cases hmem
  obtain ⟨e, he⟩ := mailboxOpFold_error_exists mailboxDocIds
    (store.mailboxTags documentId) ops.mailboxOps (Tag.id m) hmem
    (by simpa [Tag.unwrapIdD] using hnot)
    ((store.mailboxTags documentId).foldl (mailboxCurrentStep ops) ([], [], false))
  obtain ⟨p, hp⟩ := mailboxOpFold_error_msg mailboxDocIds _ _ _ _ he
  refine ⟨p, ?_⟩
  rw [mailboxSection, if_pos (Or.inl hne)]
  simp only []
  rw [he, hp]

/-- C5: every live Mail document keeps at least one mailbox tag through
creates and updates: (1) a create accepted by `build_message` carries a
nonempty `mailboxIds` list; (2) when the property fold resolves zero
mailboxes, `build_message` fails with `InvalidProperties` ("Message has
to belong to at least one mailbox."); (3) an update accepted by
`processUpdate` leaves the message's mailbox tag set nonempty after its
document ops are applied; (4) an update tagging a nonexistent mailbox
fails with `InvalidProperties` ("Mailbox does not exist.") and queues no
document ops and no log entries, leaving the document unmodified. -/
theorem C5_at_least_one_mailbox :
    (∀ (em : List Nat) (ci : List (String × Nat)) (fields : BuildFields)
        (item : MessageItemM),
      build_message em ci fields = .ok item → item.mailboxIds ≠ []) ∧
    (∀ (em : List Nat) (ci : List (String × Nat)) (fs : List BuildField)
        (item : MessageItemM),
      fs.foldlM (collectBuildField em ci) ⟨[], [], false⟩ = .ok item →
      item.mailboxIds = [] →
      build_message em ci (.object fs) =
        .error (.error .invalidProperties
          "Message has to belong to at least one mailbox.")) ∧
    (∀ (store : MailStoreState) (documentIds mailboxDocIds : List Nat)
        (createdIds : List (String × Nat)) (destroy : List JSON)
        (jmapIdStr : String) (value : JSON) (props : List (String × JSON))
        (jmapId : Nat) (ops : PatchOps) (o : UpdateSuccess),
      from_jmap_string jmapIdStr = some jmapId →
      value.toObject = some props →
      collectPatchOps createdIds props = .ok ops →
      processUpdate store documentIds mailboxDocIds createdIds destroy
        jmapIdStr value = .ok o →
      store.mailboxTags (jmapId % 2 ^ 32) ≠ [] →
      applyTagOps (store.mailboxTags (jmapId % 2 ^ 32)) o.document .mailbox ≠ []) ∧
    (∀ (store : MailStoreState) (documentIds mailboxDocIds : List Nat)
        (createdIds : List (String × Nat)) (destroy : List JSON)
        (jmapIdStr : String) (value : JSON) (props : List (String × JSON))
        (jmapId m : Nat),
      from_jmap_string jmapIdStr = some jmapId →
      value.toObject = some props →
      jmapId % 2 ^ 32 ∈ documentIds →
      destroy.any (fun x => (x.toStr.map (fun v => v == jmapIdStr)).getD false) = false →
      ∀ ops : PatchOps,
      collectPatchOps createdIds props = .ok ops →
      (Tag.id m, true) ∈ ops.mailboxOps →
      m ∉ mailboxDocIds →
      ∃ p, processUpdate store documentIds mailboxDocIds createdIds destroy
        jmapIdStr value = .error (.invalidProperty p "Mailbox does not exist.", [])) := by
  refine ⟨?_, ?_, ?_, ?_⟩
  · intro em ci fields item h
    cases fields with
    | notObject => cases h
    | object fs =>
      simp only [build_message, bind, Except.bind] at h
      cases hF : fs.foldlM (collectBuildField em ci) ⟨[], [], false⟩ with
      | error e => rw [hF] at h; cases h
      | ok item0 =>
        rw [hF] at h
        simp only [] at h
        split at h
        · exact absurd h (by simp [throw, throwThe, MonadExceptOf.throw])
        · next hne =>
          split at h
          · exact absurd h (by simp [throw, throwThe, MonadExceptOf.throw])
          · simp only [pure, Except.pure, Except.ok.injEq] at h
            subst h
            exact hne
  · intro em ci fs item hF hnil
    simp only [build_message, bind, Except.bind, hF]
    rw [if_pos hnil]
    rfl
  · intro store documentIds mailboxDocIds createdIds destroy jmapIdStr value props
      jmapId ops o hparse hobj hcol hok hcur
    simp only [processUpdate, hparse, hobj, bind, Except.bind, pure, Except.pure] at hok
    rw [hcol] at hok
    split at hok
    · exact absurd hok (by simp [throw, throwThe, MonadExceptOf.throw])
    · split at hok
      · exact absurd hok (by simp [throw, throwThe, MonadExceptOf.throw])
      · simp only [] at hok
        cases hM : mailboxSection store (jmapId % 2 ^ 32) mailboxDocIds ops with
        | error e => rw [hM] at hok; cases hok
        | ok part =>
          rw [hM] at hok
          simp only [] at hok
          split at hok
          · exact absurd hok (by simp [throw, throwThe, MonadExceptOf.throw])
          · rw [Except.ok.injEq] at hok
            subst hok
            obtain ⟨κ, hκ1, hκ2⟩ :=
              keywordSection_fst store (jmapId % 2 ^ 32) ops part.1 part.2
            have hnd := collectPatchOps_mailbox_nodup createdIds props ops hcol
            have hbase := mailboxSection_ok_nonempty store (jmapId % 2 ^ 32)
              mailboxDocIds ops part hnd hM hcur
            simp only []
            rw [hκ1, applyTagOps_append,
              applyTagOps_other_field _ _ _ (fun op hop => by simp [hκ2 op hop])]
            exact hbase
  · intro store documentIds mailboxDocIds createdIds destroy jmapIdStr value props
      jmapId m hparse hobj hlive hdes ops hcol hmem hnot
    obtain ⟨p, hp⟩ := mailboxSection_nonexistent_error store (jmapId % 2 ^ 32)
      mailboxDocIds ops m hmem hnot
    refine ⟨p, ?_⟩
    simp only [processUpdate, hparse, hobj, bind, Except.bind, pure, Except.pure]
    rw [hcol]
    rw [if_neg (not_not.mpr hlive), if_neg (by simp [hdes])]
    simp only []
    rw [hp]

def c5Store : MailStoreState :=
  { mailDocumentIds := [1], mailboxDocumentIds := [3, 4],
    mailboxTags := fun d => if d = 1 then [Tag.id 3] else [],
    keywordTags := fun _ => [],
    mailState := 0 }

/-- C5 (witness): a create whose only property is a header contribution
is rejected for lacking mailboxes; adding mailbox 4 to a message in
mailbox 3 keeps the tag set nonempty; tagging nonexistent mailbox 5
fails with "Mailbox does not exist.". -/
theorem C5_at_least_one_mailbox_witness :
    build_message [] [] (.object [.headerOrBody (.ok true)]) =
      .error (.error .invalidProperties
        "Message has to belong to at least one mailbox.") ∧
    applyTagOps (c5Store.mailboxTags 1)
      [⟨.mailbox, Tag.id 4, false⟩] .mailbox ≠ [] ∧
    (∃ p, processUpdate c5Store [1] [3, 4] [] [] "i01"
        (JSON.object [("mailboxIds/i05", JSON.bool true)]) =
      .error (.invalidProperty p "Mailbox does not exist.", [])) := by
  refine ⟨C5_at_least_one_mailbox.2.1 [] [] [.headerOrBody (.ok true)]
      ⟨[], [], true⟩ (by rfl) rfl,
    C5_at_least_one_mailbox.2.2.1 c5Store [1] [3, 4] [] [] "i01"
      (JSON.object [("mailboxIds/i04", JSON.bool true)])
      [("mailboxIds/i04", JSON.bool true)] 1
      ⟨[], false, [(Tag.id 4, true)], false⟩
      { documentId := 1, jmapId := 1,
        document := [⟨.mailbox, Tag.id 4, false⟩], changedMailboxes := [4],
        logs := [LogChange.childUpdate .mailbox 4, LogChange.update .mail 1] }
      (by rfl) rfl (by rfl) (by rfl) (by decide),
    C5_at_least_one_mailbox.2.2.2 c5Store [1] [3, 4] [] [] "i01"
      (JSON.object [("mailboxIds/i05", JSON.bool true)])
      [("mailboxIds/i05", JSON.bool true)] 1 5 (by rfl) rfl (by decide) (by rfl)
      ⟨[], false, [(Tag.id 5, true)], false⟩ (by rfl) (by decide) (by decide)⟩

end JmapServer
